import Mathlib

/-!
Verification development for the s_style_agent repository.

Shallow embedding of the repository's core: the S-expression AST
(`core/parser.py`), the lexical environment (`core/evaluator.py`,
class `Environment`), the synchronous tree-walking evaluator
(`ContextualEvaluator._evaluate_basic`), the asynchronous evaluator
(`core/async_evaluator.py`, `AsyncContextualEvaluator`), the security
gate (`tools/security_sympy.py`, `SecurityValidator`), and the trace
logger's path stack (`core/trace_logger.py`, `push_path`/`pop_path`).

Modelling conventions, stated once:
* Python dynamic values are the closed union `Val`; Python floats are
  modelled exactly as rationals (no claim here depends on rounding).
* Fallible Python code returns `Except EvalErr`; each `EvalErr`
  constructor names the Python exception class it embeds.
* The evaluators are given explicit fuel; `EvalErr.outOfFuel` is an
  embedding artifact that never occurs at the fuel used by theorems.
* External backends that are out of the core's scope (sympy, MCP
  tools, user interaction) are abstracted as oracle functions; the
  surrounding control flow, argument evaluation, path bookkeeping and
  error handling of each operator arm follow the source line by line.
* Concurrency is modelled by its deterministic sequential projection
  (branches of `par` evaluated in declaration order); where completion
  order is observable (asyncio.gather error selection) it is made an
  explicit schedule parameter.
* Python's textual rendering of values (`str(...)`) is abstracted by
  `pyStr`; no theorem depends on the exact rendering of composite
  values.
-/

namespace SAgent

/-- AST produced by `parse_s_expression` (core/parser.py): an atom is a
string, an int or a float; a form is a list. -/
inductive SExpr where
  | str (s : String)
  | int (n : Int)
  | float (q : Rat)
  | list (es : List SExpr)

instance : Inhabited SExpr := ⟨.list []⟩

/-- Dynamically-typed runtime value of the evaluator: atoms, Python
bools (results of comparisons), `None`, lists (results of `par`), and
the structured error record that `handle` binds. -/
inductive Val where
  | vStr (s : String)
  | vInt (n : Int)
  | vFloat (q : Rat)
  | vBool (b : Bool)
  | vNone
  | vList (vs : List Val)
  | vErrInfo (ty : String) (msg : String) (orig : SExpr)

instance : Inhabited Val := ⟨.vNone⟩

/-- Python exceptions raised by the embedded code, by class. -/
inductive EvalErr where
  | nameError (msg : String)
  | typeError (msg : String)
  | valueError (msg : String)
  | securityError (msg : String)
  | indexError (msg : String)
  | notImplementedError (msg : String)
  | outOfFuel
deriving DecidableEq, Repr

/-- `type(e).__name__` for the embedded exceptions. -/
def errName : EvalErr → String
  | .nameError _ => "NameError"
  | .typeError _ => "TypeError"
  | .valueError _ => "ValueError"
  | .securityError _ => "SecurityError"
  | .indexError _ => "IndexError"
  | .notImplementedError _ => "NotImplementedError"
  | .outOfFuel => "OutOfFuel"

/-- `str(e)` for the embedded exceptions. -/
def errMsg : EvalErr → String
  | .nameError m => m
  | .typeError m => m
  | .valueError m => m
  | .securityError m => m
  | .indexError m => m
  | .notImplementedError m => m
  | .outOfFuel => "out of fuel"

/-- Scope-chain environment (core/evaluator.py, class `Environment`):
a binding dict plus an optional parent.  `root` is a parent-less
environment, `child` holds its parent inline (value semantics of the
single-threaded execution). -/
inductive Env where
  | root (bindings : List (String × Val))
  | child (bindings : List (String × Val)) (parent : Env)

instance : Inhabited Env := ⟨.root []⟩

/-- Local binding dict of an environment. -/
def Env.bindings : Env → List (String × Val)
  | .root bs => bs
  | .child bs _ => bs

/-- `var in self.bindings`. -/
def containsVar (bs : List (String × Val)) (x : String) : Bool :=
  bs.any (fun b => b.1 == x)

/-- Dict read: first matching key. -/
def lookupAssoc : List (String × Val) → String → Option Val
  | [], _ => none
  | b :: bs, x => if b.1 == x then some b.2 else lookupAssoc bs x

/-- Dict update of an existing key in place. -/
def updAssoc : List (String × Val) → String → Val → List (String × Val)
  | [], _, _ => []
  | b :: bs, x, v => if b.1 == x then (x, v) :: bs else b :: updAssoc bs x v

/-- Dict assignment `bs[x] = v`: update if present, append otherwise. -/
def assocSet (bs : List (String × Val)) (x : String) (v : Val) :
    List (String × Val) :=
  if containsVar bs x then updAssoc bs x v else bs ++ [(x, v)]

/-- `Environment.define`: always writes the innermost scope. -/
def Env.define : Env → String → Val → Env
  | .root bs, x, v => .root (assocSet bs x v)
  | .child bs p, x, v => .child (assocSet bs x v) p

/-- `Environment.lookup` (returning `none` for the `NameError` case). -/
def Env.lookupChain : Env → String → Option Val
  | .root bs, x => lookupAssoc bs x
  | .child bs p, x =>
    match lookupAssoc bs x with
    | some v => some v
    | none => p.lookupChain x

/-- `Environment.set`: mutate the nearest scope in the parent chain
that already defines `var`; `NameError` if no scope does. -/
def Env.setVar : Env → String → Val → Except EvalErr Env
  | .root bs, x, v =>
    if containsVar bs x then .ok (.root (updAssoc bs x v))
    else .error (.nameError ("Name \x27" ++ x ++ "\x27 is not defined"))
  | .child bs p, x, v =>
    if containsVar bs x then .ok (.child (updAssoc bs x v) p)
    else (p.setVar x v).map (fun p1 => .child bs p1)

/-- The chain of binding dicts, innermost first (for stating which
frame `set` mutates). -/
def Env.frames : Env → List (List (String × Val))
  | .root bs => [bs]
  | .child bs p => bs :: p.frames

/-- Parent of a child environment (used where the source discards a
`let`/`handle` child scope and execution continues in the outer one). -/
def Env.parentOrSelf : Env → Env
  | .root bs => .root bs
  | .child _ p => p

/-- Python truthiness of the embedded values. -/
def truthy : Val → Bool
  | .vStr s => s ≠ ""
  | .vInt n => n ≠ 0
  | .vFloat q => q ≠ 0
  | .vBool b => b
  | .vNone => false
  | .vList vs => ¬ vs.isEmpty
  | .vErrInfo _ _ _ => true

/-- Numeric view of a value for arithmetic: Python treats `bool` as an
int.  Returns (is-float, exact value). -/
def numOfVal : Val → Option (Bool × Rat)
  | .vInt n => some (false, (n : Rat))
  | .vFloat q => some (true, q)
  | .vBool b => some (false, if b then 1 else 0)
  | _ => none

/-- Python `+` on the embedded values: string and list concatenation,
numeric addition with float promotion, `TypeError` otherwise. -/
def pyAdd (a b : Val) : Except EvalErr Val :=
  match a, b with
  | .vStr s, .vStr t => .ok (.vStr (s ++ t))
  | .vList xs, .vList ys => .ok (.vList (xs ++ ys))
  | _, _ =>
    match numOfVal a, numOfVal b with
    | some (fa, qa), some (fb, qb) =>
      if fa || fb then .ok (.vFloat (qa + qb))
      else .ok (.vInt (qa + qb).num)
    | _, _ =>
      .error (.typeError ("unsupported operand type(s) for +"))

/-- Python `<` on the embedded values: numeric comparison (bool as
int), lexicographic string comparison, `TypeError` otherwise.
(Python's recursive list comparison is not modelled; no claim uses it.) -/
def pyLt (a b : Val) : Except EvalErr Val :=
  match a, b with
  | .vStr s, .vStr t => .ok (.vBool (decide (s < t)))
  | _, _ =>
    match numOfVal a, numOfVal b with
    | some (_, qa), some (_, qb) => .ok (.vBool (decide (qa < qb)))
    | _, _ =>
      .error (.typeError ("unsupported operand type(s) for <"))

/-- Abstraction of Python `str(...)` on values.  Exact rendering of
composite values is irrelevant to every claim. -/
def pyStr : Val → String
  | .vStr s => s
  | .vInt n => toString n
  | .vFloat q => toString q
  | .vBool b => if b then "True" else "False"
  | .vNone => "None"
  | .vList _ => "[list]"
  | .vErrInfo ty m _ => "error-record(" ++ ty ++ ": " ++ m ++ ")"

/-- Abstraction of Python `str(...)` on raw AST nodes (used where the
source stringifies an unevaluated argument, e.g. variable names). -/
def pyStrS : SExpr → String
  | .str s => s
  | .int n => toString n
  | .float q => toString q
  | .list _ => "[expr]"

/-! ## Security gate (tools/security_sympy.py)

The forbidden regexes of `SafeSymPyCalculator.forbidden_patterns` are
embedded as executable matchers over the lower-cased character list
(the source passes `re.IGNORECASE`).  Every pattern is of one of three
shapes: `__.*__`, `import\s`, or `name\s*\(`. -/

/-- Python `\s` whitespace class. -/
def pyWs (c : Char) : Bool :=
  c == ' ' || c == '\t' || c == '\n' || c == '\r' || c == '\x0b' || c == '\x0c'

/-- Strip an exact character sequence from the front, if present. -/
def stripPre : List Char → List Char → Option (List Char)
  | [], cs => some cs
  | _ :: _, [] => none
  | p :: ps, c :: cs => if c == p then stripPre ps cs else none

/-- Match `\s*\(` at the front of the list. -/
def wsParen : List Char → Bool
  | [] => false
  | c :: cs => if c == '(' then true else if pyWs c then wsParen cs else false

/-- Match `name\s*\(` at the current position. -/
def matchCallAt (name : List Char) (cs : List Char) : Bool :=
  match stripPre name cs with
  | some rest => wsParen rest
  | none => false

/-- Match `import\s` at the current position. -/
def matchImportAt (cs : List Char) : Bool :=
  match stripPre "import".toList cs with
  | some (c :: _) => pyWs c
  | _ => false

/-- `re.search`: try the position matcher at every suffix. -/
def searchBy (p : List Char → Bool) : List Char → Bool
  | [] => p []
  | c :: rest => p (c :: rest) || searchBy p rest

/-- After an opening `__`, scan for a closing `__` with no newline in
between (regex `.` does not cross newlines). -/
def closeDunder : List Char → Bool
  | '_' :: '_' :: _ => true
  | '\n' :: _ => false
  | _ :: cs => closeDunder cs
  | [] => false

/-- Match `__.*__` at the current position: an opening `__` here with
a closing `__` later on the same line. -/
def matchDunderAt : List Char → Bool
  | '_' :: '_' :: rest => closeDunder rest
  | _ => false

/-- `re.search` for `__.*__`. -/
def openDunder (cs : List Char) : Bool := searchBy matchDunderAt cs

/-- One forbidden pattern of shape `name\s*\(` with its source label. -/
def callPat (label : String) (name : String) : String × (List Char → Bool) :=
  (label, searchBy (matchCallAt name.toList))

/-- `SafeSymPyCalculator.forbidden_patterns`, in source order, each
paired with its matcher. -/
def forbidden_patterns : List (String × (List Char → Bool)) :=
  [ ("__.*__", openDunder),
    ("import\\s", searchBy matchImportAt),
    callPat "exec\\s*\\(" "exec",
    callPat "eval\\s*\\(" "eval",
    callPat "open\\s*\\(" "open",
    callPat "file\\s*\\(" "file",
    callPat "input\\s*\\(" "input",
    callPat "raw_input\\s*\\(" "raw_input",
    callPat "compile\\s*\\(" "compile",
    callPat "globals\\s*\\(" "globals",
    callPat "locals\\s*\\(" "locals",
    callPat "vars\\s*\\(" "vars",
    callPat "dir\\s*\\(" "dir",
    callPat "help\\s*\\(" "help",
    callPat "getattr\\s*\\(" "getattr",
    callPat "setattr\\s*\\(" "setattr",
    callPat "delattr\\s*\\(" "delattr",
    callPat "hasattr\\s*\\(" "hasattr" ]

/-- ASCII lower-casing of one character (the `re.IGNORECASE` flag of
the source; every forbidden pattern is pure ASCII). -/
def lowerChar (c : Char) : Char :=
  if 65 ≤ c.toNat ∧ c.toNat ≤ 90 then Char.ofNat (c.toNat + 32) else c

/-- Python `str.strip()`: drop whitespace from both ends. -/
def trimChars (cs : List Char) : List Char :=
  ((cs.dropWhile pyWs).reverse.dropWhile pyWs).reverse

/-- First forbidden pattern (by source order) matching the character
list, case-insensitively. -/
def firstForbiddenL (cs : List Char) : Option String :=
  (forbidden_patterns.find? (fun p => p.2 (cs.map lowerChar))).map
    (fun p => p.1)

/-- First forbidden pattern matching the string. -/
def firstForbidden (s : String) : Option String :=
  firstForbiddenL s.toList

/-- Does any forbidden pattern match the string? -/
def matchesForbidden (s : String) : Bool :=
  (firstForbidden s).isSome

/-- `SafeSymPyCalculator.validate_expression`: strip, reject empty,
reject the first matching forbidden pattern, reject length over 2000. -/
def validate_expression (expression : String) : Bool × String :=
  let e := trimChars expression.toList
  if e.isEmpty then (false, "空の式は許可されません")
  else
    match firstForbiddenL e with
    | some p => (false, "危険なパターンが検出されました: " ++ p)
    | none =>
      if e.length > 2000 then (false, "式が長すぎます（最大2000文字）")
      else (true, "")

/-- `ToolWhitelist.allowed_tools` (default construction). -/
def allowed_tools : List String := ["notify", "calc", "search", "db-query"]

/-- `ToolWhitelist.admin_only_tools`. -/
def admin_only_tools : List String := ["exec", "shell", "file-write", "system"]

/-- `ToolWhitelist.is_allowed`. -/
def is_allowed (tool_name : String) (is_admin : Bool) : Bool :=
  if admin_only_tools.contains tool_name then is_admin
  else allowed_tools.contains tool_name

/-- The control structures exempt from the whitelist check. -/
def control_structures : List String := ["seq", "par", "if", "let", "plan"]

/-- Validation loop over child expressions: stops at the first failing
child and returns its single message. -/
def validateList (f : SExpr → Bool × String) : List SExpr → Bool × String
  | [] => (true, "")
  | a :: rest =>
    let r := f a
    if r.1 then validateList f rest else r

/-- Validation loop over `let` bindings: for each `[name, value]`
binding the name is skipped and only the value is validated; malformed
bindings are skipped entirely. -/
def validateBindings (f : SExpr → Bool × String) : List SExpr → Bool × String
  | [] => (true, "")
  | b :: rest =>
    match b with
    | .list (_ :: v :: _) =>
      let r := f v
      if r.1 then validateBindings f rest else r
    | _ => validateBindings f rest

/-- `SecurityValidator._validate_recursive` (tools/security_sympy.py):
string and numeric atoms are considered safe; a non-control operator
must be whitelisted; the first argument of `calc`, when a string, goes
through `validate_expression`; a `let` form of length at least 3
validates only its binding values and its body; otherwise all children
are validated.  Fuel models Python's recursion limit (exceeding it is
caught by `validate_s_expression` and reported as a failure). -/
def validate_recursive (is_admin : Bool) : Nat → SExpr → Bool × String
  | 0, _ => (false, "セキュリティ検証エラー: maximum recursion depth exceeded")
  | _ + 1, .str _ => (true, "")
  | _ + 1, .int _ => (true, "")
  | _ + 1, .float _ => (true, "")
  | _ + 1, .list [] => (true, "")
  | fuel + 1, .list (op :: args) =>
    let failOp : Option String :=
      match op with
      | .str o =>
        if !(control_structures.contains o) && !(is_allowed o is_admin) then
          some ("ツール \x27" ++ o ++ "\x27 は許可されていません")
        else none
      | _ => none
    match failOp with
    | some m => (false, m)
    | none =>
      let calcFail : Option String :=
        match op, args with
        | .str "calc", .str cs :: _ =>
          let r := validate_expression cs
          if r.1 then none else some ("calc式が無効: " ++ r.2)
        | _, _ => none
      match calcFail with
      | some m => (false, m)
      | none =>
        match op, args with
        | .str "let", bindings :: body :: _ =>
          let bres :=
            match bindings with
            | .list bs => validateBindings (validate_recursive is_admin fuel) bs
            | _ => (true, "")
          if bres.1 then validate_recursive is_admin fuel body else bres
        | _, _ => validateList (validate_recursive is_admin fuel) args

/-- `SecurityValidator.validate_s_expression`: the public gate.  The
surrounding try/except only converts a recursion-limit overflow into a
failure, which the fuel-0 case of `validate_recursive` already does. -/
def validate_s_expression (s_expr : SExpr) (is_admin : Bool) (fuel : Nat) :
    Bool × String :=
  validate_recursive is_admin fuel s_expr

/-! ## Synchronous evaluator (core/evaluator.py)

`ContextualEvaluator._evaluate_basic` is a recursive tree walker over
the shared `TraceLogger`.  The logger state kept here is its
`current_path` stack (head = top of stack) plus a chronological log of
the observable external effects (tool/builtin invocations).  Trace
entry bookkeeping (`start_operation`/`end_operation`) records
timestamps and snapshots only and is elided; `push_path`/`pop_path`
and the error handler's `current_path.clear()` are modelled exactly. -/

/-- Observable external effect of one operator arm. -/
inductive Effect where
  | notifyE (msg : Val)
  | searchE (q : Val)
  | calcE (s : String)
  | dbQueryE (q : Val)
  | mathE (expr : String) (op : String) (var : String)
  | stepMathE (expr : String) (op : String) (var : String)
  | askUserE (q : String)
  | toolE (tname : String) (targs : List Val)

/-- Logger state: the mutable path stack (`TraceLogger.current_path`,
top element at the head) and the chronological effect log. -/
structure SyncState where
  path : List Nat
  effects : List Effect

/-- `TraceLogger.push_path`. -/
def pushP (i : Nat) (st : SyncState) : SyncState :=
  { st with path := i :: st.path }

/-- `TraceLogger.pop_path` (no-op on an empty stack, as in the source). -/
def popP (st : SyncState) : SyncState :=
  { st with path := st.path.tail }

/-- Append an effect to the log. -/
def logE (e : Effect) (st : SyncState) : SyncState :=
  { st with effects := st.effects ++ [e] }

/-- Result of one evaluator step: Python result-or-exception, the
threaded environment, and the logger state. -/
abbrev Res := Except EvalErr Val × Env × SyncState

/-- Out-of-scope external backends of the synchronous evaluator
(sympy `calc`/`math`, MCP search, the step-math engine, user
interaction, and the unified tool executor).  Each oracle is total
because the corresponding arm converts every backend failure into an
ordinary string result. -/
structure Oracles where
  calcFn : String → Val
  searchFn : Val → Val
  mathFn : String → String → String → Val
  stepMathFn : String → String → String → Val
  askUserFn : String → String → String → Option Val
  toolFn : String → List Val → Val

/-- The `push_path(i); eval; pop_path()` bracket around one child
evaluation.  When the child raises, the `pop_path` is skipped (the
exception propagates past it), exactly as in the source. -/
def subEval (f : SExpr → Env → SyncState → Res) (i : Nat) (e : SExpr)
    (env : Env) (st : SyncState) : Res :=
  match f e env (pushP i st) with
  | (.ok v, env1, st1) => (.ok v, env1, popP st1)
  | r => r

/-- The `seq` loop: evaluate children in order under the same
environment, keeping the last result (`None` for an empty `seq`). -/
def evalSeq (f : SExpr → Env → SyncState → Res) :
    List SExpr → Nat → Val → Env → SyncState → Res
  | [], _, acc, env, st => (.ok acc, env, st)
  | a :: rest, i, _, env, st =>
    match subEval f i a env st with
    | (.ok v, env1, st1) => evalSeq f rest (i + 1) v env1 st1
    | r => r

/-- The `par` branches in their deterministic sequential projection:
every branch runs (the thread pool executes all submitted futures even
when an earlier one failed), each result kept as ok-or-error. -/
def evalPar (f : SExpr → Env → SyncState → Res) :
    List SExpr → Nat → Env → SyncState →
      List (Except EvalErr Val) × Env × SyncState
  | [], _, env, st => ([], env, st)
  | a :: rest, i, env, st =>
    let (r, env1, st1) := subEval f i a env st
    let (rs, env2, st2) := evalPar f rest (i + 1) env1 st1
    (r :: rs, env2, st2)

/-- First branch error in declaration order (`future.result()` is
called on the futures in submission order). -/
def firstErrOf : List (Except EvalErr Val) → Option EvalErr
  | [] => none
  | .error e :: _ => some e
  | .ok _ :: rest => firstErrOf rest

/-- Values of a list of all-ok branch results, in order. -/
def okVals (rs : List (Except EvalErr Val)) : List Val :=
  rs.filterMap (fun r => r.toOption)

/-- The `+` fold over the remaining operands (enumerate from index 2). -/
def evalAddFold (f : SExpr → Env → SyncState → Res) :
    List SExpr → Nat → Val → Env → SyncState → Res
  | [], _, acc, env, st => (.ok acc, env, st)
  | a :: rest, i, acc, env, st =>
    match subEval f i a env st with
    | (.ok v, env1, st1) =>
      match pyAdd acc v with
      | .ok acc1 => evalAddFold f rest (i + 1) acc1 env1 st1
      | .error e => (.error e, env1, st1)
    | r => r

/-- The `let` binding loop: each binding is `[name, expr]`, its value
expression is evaluated against the outer environment, and the value
is defined into the accumulating child binding dict. -/
def evalLetBindings (f : SExpr → Env → SyncState → Res) :
    List SExpr → Nat → List (String × Val) → Env → SyncState →
      Except EvalErr (List (String × Val)) × Env × SyncState
  | [], _, acc, env, st => (.ok acc, env, st)
  | b :: rest, i, acc, env, st =>
    match b with
    | .list [.str var, valExpr] =>
      match subEval f i valExpr env st with
      | (.ok v, env1, st1) =>
        evalLetBindings f rest (i + 1) (assocSet acc var v) env1 st1
      | (.error e, env1, st1) => (.error e, env1, st1)
    | .list [_, _] =>
      (.error (.typeError "変数名は文字列である必要があります"), env, st)
    | _ =>
      (.error (.typeError "let式の束縛は[変数名, 値]の形式である必要があります"),
        env, st)

/-- The `while` loop body (`iteration_count` is returned alongside the
result; the evaluator discards it, the theorems read it).  Recursion is
on the remaining iteration budget `maxIter - count`. -/
def runWhileAux (f : SExpr → Env → SyncState → Res) (c b : SExpr) :
    Nat → Nat → Val → Env → SyncState →
      (Except EvalErr Val × Nat) × Env × SyncState
  | 0, count, acc, env, st => ((.ok acc, count), env, st)
  | remaining + 1, count, acc, env, st =>
    match subEval f 1 c env st with
    | (.ok cv, env1, st1) =>
      if truthy cv then
        match subEval f 2 b env1 st1 with
        | (.ok bv, env2, st2) =>
          runWhileAux f c b remaining (count + 1) bv env2 st2
        | (.error e, env2, st2) => ((.error e, count), env2, st2)
      else ((.ok acc, count), env1, st1)
    | (.error e, env1, st1) => ((.error e, count), env1, st1)

/-- Validation of the evaluated `max_iterations` value and the loop
run: must be numeric (`bool` counts as int) and positive, truncated by
`int(...)`, then checked against the hard ceiling 10000. -/
def whileCont (f : SExpr → Env → SyncState → Res) (c b : SExpr) (mv : Val)
    (env : Env) (st : SyncState) : Res :=
  match numOfVal mv with
  | none =>
    (.error (.typeError ("最大反復数は正の数値である必要があります: " ++ pyStr mv)),
      env, st)
  | some (_, q) =>
    if q ≤ 0 then
      (.error (.typeError ("最大反復数は正の数値である必要があります: " ++ pyStr mv)),
        env, st)
    else
      let maxN : Nat := q.floor.toNat
      if maxN > 10000 then
        (.error (.valueError ("最大反復数が制限を超えています: " ++
          toString maxN ++ " > 10000")), env, st)
      else
        let ((r, _), env1, st1) := runWhileAux f c b maxN 0 .vNone env st
        (r, env1, st1)

/-- The tool-dispatch argument loop of the fallthrough arm. -/
def evalToolArgs (f : SExpr → Env → SyncState → Res) :
    List SExpr → Nat → List Val → Env → SyncState →
      Except EvalErr (List Val) × Env × SyncState
  | [], _, acc, env, st => (.ok acc, env, st)
  | a :: rest, i, acc, env, st =>
    match subEval f i a env st with
    | (.ok v, env1, st1) => evalToolArgs f rest (i + 1) (acc ++ [v]) env1 st1
    | (.error e, env1, st1) => (.error e, env1, st1)

/-- The `pop_path()` on the success exit of a form's dispatch; an
exception skips it. -/
def finishArm : Res → Res
  | (.ok v, env1, st1) => (.ok v, env1, popP st1)
  | rr => rr

/-- The `plan` arm: evaluate the first argument directly. -/
def armPlan (f : SExpr → Env → SyncState → Res) (args : List SExpr)
    (env : Env) (st0 : SyncState) : Res :=
  match args with
  | a :: _ => f a env st0
  | [] => (.error (.indexError "list index out of range"), env, st0)

/-- The `seq` arm. -/
def armSeq (f : SExpr → Env → SyncState → Res) (args : List SExpr)
    (env : Env) (st0 : SyncState) : Res :=
  evalSeq f args 1 .vNone env st0

/-- The `par` arm: run all branches, surface the first error in
declaration order, else the ordered value list. -/
def armPar (f : SExpr → Env → SyncState → Res) (args : List SExpr)
    (env : Env) (st0 : SyncState) : Res :=
  let (rs, env1, st1) := evalPar f args 1 env st0
  match firstErrOf rs with
  | some e1 => (.error e1, env1, st1)
  | none => (.ok (.vList (okVals rs)), env1, st1)

/-- The `if` arm: evaluate the condition, then exactly one branch;
missing else yields `None`. -/
def armIf (f : SExpr → Env → SyncState → Res) (args : List SExpr)
    (env : Env) (st0 : SyncState) : Res :=
  match args with
  | [] => (.error (.indexError "list index out of range"), env, st0)
  | cnd :: rest =>
    match subEval f 1 cnd env st0 with
    | (.ok cv, env1, st1) =>
      if truthy cv then
        match rest with
        | thn :: _ => subEval f 2 thn env1 st1
        | [] => (.error (.indexError "list index out of range"), env1, st1)
      else
        match rest with
        | _ :: els :: _ => subEval f 3 els env1 st1
        | _ => (.ok .vNone, env1, st1)
    | r1 => r1

/-- The `handle` arm: on an error in the protected form, bind the
error record in a fresh child scope and run the fallback there. -/
def armHandle (f : SExpr → Env → SyncState → Res) (args : List SExpr)
    (env : Env) (st0 : SyncState) : Res :=
  match args with
  | [errVar, form, fallback] =>
    match errVar with
    | .str ev =>
      match subEval f 2 form env st0 with
      | (.ok v, env1, st1) => (.ok v, env1, st1)
      | (.error e1, env1, st1) =>
        let errEnv : Env :=
          .child [(ev, .vErrInfo (errName e1) (errMsg e1) form)] env1
        match subEval f 3 fallback errEnv st1 with
        | (r2, env2, st2) => (r2, env2.parentOrSelf, st2)
    | _ =>
      (.error (.typeError "エラー変数名は文字列である必要があります"), env, st0)
  | _ =>
    (.error (.typeError
      "handle式は3つの引数が必要です: (handle error_var form fallback_form)"),
      env, st0)

/-- The `set` arm. -/
def armSet (f : SExpr → Env → SyncState → Res) (args : List SExpr)
    (env : Env) (st0 : SyncState) : Res :=
  match args with
  | [varName, valueExpr] =>
    match varName with
    | .str vn =>
      match subEval f 2 valueExpr env st0 with
      | (.ok v, env1, st1) =>
        match env1.setVar vn v with
        | .ok env2 => (.ok v, env2, st1)
        | .error e1 => (.error e1, env1, st1)
      | r1 => r1
    | _ =>
      (.error (.typeError "変数名は文字列である必要があります"), env, st0)
  | _ =>
    (.error (.typeError "set式は2つの引数が必要です: (set var_name value)"),
      env, st0)

/-- The `while` arm. -/
def armWhile (f : SExpr → Env → SyncState → Res) (args : List SExpr)
    (env : Env) (st0 : SyncState) : Res :=
  match args with
  | [c, b] => whileCont f c b (.vInt 1000) env st0
  | [c, b, m] =>
    match m with
    | .int n => whileCont f c b (.vInt n) env st0
    | _ =>
      match f m env st0 with
      | (.ok mv, env1, st1) => whileCont f c b mv env1 st1
      | r1 => r1
  | _ =>
    (.error (.typeError
      "while式は2-3個の引数が必要です: (while condition body [max_iterations])"),
      env, st0)

/-- The `+` arm. -/
def armPlus (f : SExpr → Env → SyncState → Res) (args : List SExpr)
    (env : Env) (st0 : SyncState) : Res :=
  match args with
  | a :: b :: rest =>
    match subEval f 1 a env st0 with
    | (.ok v0, env1, st1) => evalAddFold f (b :: rest) 2 v0 env1 st1
    | r1 => r1
  | _ =>
    (.error (.typeError "加算には少なくとも2つの引数が必要です"), env, st0)

/-- The `<` arm. -/
def armLt (f : SExpr → Env → SyncState → Res) (args : List SExpr)
    (env : Env) (st0 : SyncState) : Res :=
  match args with
  | [a, b] =>
    match subEval f 1 a env st0 with
    | (.ok va, env1, st1) =>
      match subEval f 2 b env1 st1 with
      | (.ok vb, env2, st2) =>
        match pyLt va vb with
        | .ok v => (.ok v, env2, st2)
        | .error e1 => (.error e1, env2, st2)
      | r2 => r2
    | r1 => r1
  | _ =>
    (.error (.typeError "比較には2つの引数が必要です"), env, st0)

/-- The `let` arm. -/
def armLet (f : SExpr → Env → SyncState → Res) (args : List SExpr)
    (env : Env) (st0 : SyncState) : Res :=
  match args with
  | bindingsList :: body :: _ =>
    match bindingsList with
    | .list bs =>
      match evalLetBindings f bs 1 [] env st0 with
      | (.ok childBs, env1, st1) =>
        match subEval f (bs.length + 1) body (.child childBs env1) st1 with
        | (r2, env2, st2) => (r2, env2.parentOrSelf, st2)
      | (.error e1, env1, st1) => (.error e1, env1, st1)
    | _ =>
      (.error (.typeError
        "let式の束縛リストはリストである必要があります"), env, st0)
  | _ =>
    (.error (.indexError "list index out of range"), env, st0)

/-- The `notify` arm. -/
def armNotify (f : SExpr → Env → SyncState → Res) (args : List SExpr)
    (env : Env) (st0 : SyncState) : Res :=
  match args with
  | a :: _ =>
    match subEval f 1 a env st0 with
    | (.ok msg, env1, st1) => (.ok msg, env1, logE (.notifyE msg) st1)
    | r1 => r1
  | [] => (.error (.indexError "list index out of range"), env, st0)

/-- The `search` arm (MCP-backed search behind the oracle). -/
def armSearch (O : Oracles) (f : SExpr → Env → SyncState → Res)
    (args : List SExpr) (env : Env) (st0 : SyncState) : Res :=
  match args with
  | a :: _ =>
    match subEval f 1 a env st0 with
    | (.ok q, env1, st1) =>
      (.ok (O.searchFn q), env1, logE (.searchE q) st1)
    | r1 => r1
  | [] => (.error (.indexError "list index out of range"), env, st0)

/-- The `calc` arm (sympy behind the oracle). -/
def armCalc (O : Oracles) (f : SExpr → Env → SyncState → Res)
    (args : List SExpr) (env : Env) (st0 : SyncState) : Res :=
  match args with
  | a :: _ =>
    match subEval f 1 a env st0 with
    | (.ok v, env1, st1) =>
      (.ok (O.calcFn (pyStr v)), env1, logE (.calcE (pyStr v)) st1)
    | r1 => r1
  | [] => (.error (.indexError "list index out of range"), env, st0)

/-- The `db-query` arm (dummy result string, as in the source). -/
def armDbQuery (f : SExpr → Env → SyncState → Res) (args : List SExpr)
    (env : Env) (st0 : SyncState) : Res :=
  match args with
  | a :: _ =>
    match subEval f 1 a env st0 with
    | (.ok q, env1, st1) =>
      (.ok (.vStr ("DB結果: " ++ pyStr q)), env1, logE (.dbQueryE q) st1)
    | r1 => r1
  | [] => (.error (.indexError "list index out of range"), env, st0)

/-- The `math` arm (sympy behind the oracle). -/
def armMath (O : Oracles) (f : SExpr → Env → SyncState → Res)
    (args : List SExpr) (env : Env) (st0 : SyncState) : Res :=
  match args with
  | a :: b :: rest =>
    match subEval f 1 a env st0 with
    | (.ok ev, env1, st1) =>
      match subEval f 2 b env1 st1 with
      | (.ok opv, env2, st2) =>
        let varName := match rest with
          | v :: _ => pyStrS v
          | [] => "x"
        (.ok (O.mathFn (pyStr ev) (pyStr opv) varName), env2,
          logE (.mathE (pyStr ev) (pyStr opv) varName) st2)
      | r2 => r2
    | r1 => r1
  | _ => (.error (.indexError "list index out of range"), env, st0)

/-- The `step_math` arm (step-math engine behind the oracle). -/
def armStepMath (O : Oracles) (f : SExpr → Env → SyncState → Res)
    (args : List SExpr) (env : Env) (st0 : SyncState) : Res :=
  match args with
  | a :: b :: rest =>
    match subEval f 1 a env st0 with
    | (.ok ev, env1, st1) =>
      match subEval f 2 b env1 st1 with
      | (.ok opv, env2, st2) =>
        let varName := match rest with
          | v :: _ => pyStrS v
          | [] => "x"
        (.ok (O.stepMathFn (pyStr ev) (pyStr opv) varName), env2,
          logE (.stepMathE (pyStr ev) (pyStr opv) varName) st2)
      | r2 => r2
    | r1 => r1
  | _ => (.error (.indexError "list index out of range"), env, st0)

/-- The `ask_user` arm (user interaction behind the oracle; a success
defines the answer variable in the current scope). -/
def armAskUser (O : Oracles) (f : SExpr → Env → SyncState → Res)
    (args : List SExpr) (env : Env) (st0 : SyncState) : Res :=
  match args with
  | a :: rest =>
    match subEval f 1 a env st0 with
    | (.ok qv, env1, st1) =>
      let varName := match rest with
        | v :: _ => pyStrS v
        | [] => "user_input"
      let qType := match rest with
        | _ :: t :: _ => pyStrS t
        | _ => "required"
      let st2 := logE (.askUserE (pyStr qv)) st1
      match O.askUserFn (pyStr qv) varName qType with
      | some v => (.ok v, env1.define varName v, st2)
      | none => (.ok (.vStr "ユーザー質問エラー"), env1, st2)
    | r1 => r1
  | [] => (.error (.indexError "list index out of range"), env, st0)

/-- The unknown-operator fallthrough: evaluate all arguments, then
dispatch to the unified tool executor; a sub-evaluation error is
swallowed into an ordinary error-string result. -/
def armTool (O : Oracles) (f : SExpr → Env → SyncState → Res)
    (opStr : String) (args : List SExpr) (env : Env) (st0 : SyncState) :
    Res :=
  match evalToolArgs f args 1 [] env st0 with
  | (.ok vals, env1, st1) =>
    (.ok (O.toolFn opStr vals), env1, logE (.toolE opStr vals) st1)
  | (.error e1, env1, st1) =>
    (.ok (.vStr ("ツール処理エラー: " ++ errMsg e1)), env1, st1)

/-- One dispatch step of `ContextualEvaluator._evaluate_basic`, with
`f` the recursive occurrence.  Atoms: a string is looked up in the
scope chain and falls back to itself on `NameError`; numbers and the
empty list evaluate to themselves.  For a form, `push_path(0)` is done
before dispatch; the operator is compared by the source's if/elif
chain, in source order, falling through to the tool executor; and the
matching `pop_path()` runs after a successful arm (`finishArm`). -/
def evalCore (O : Oracles) (f : SExpr → Env → SyncState → Res)
    (e : SExpr) (env : Env) (st : SyncState) : Res :=
  match e with
  | .str s =>
    match env.lookupChain s with
    | some v => (.ok v, env, st)
    | none => (.ok (.vStr s), env, st)
  | .int n => (.ok (.vInt n), env, st)
  | .float q => (.ok (.vFloat q), env, st)
  | .list [] => (.ok (.vList []), env, st)
  | .list (h :: args) =>
    let st0 := pushP 0 st
    finishArm
      (match h with
      | .str op =>
        if op = "plan" then armPlan f args env st0
        else if op = "seq" then armSeq f args env st0
        else if op = "par" then armPar f args env st0
        else if op = "if" then armIf f args env st0
        else if op = "handle" then armHandle f args env st0
        else if op = "set" then armSet f args env st0
        else if op = "while" then armWhile f args env st0
        else if op = "+" then armPlus f args env st0
        else if op = "<" then armLt f args env st0
        else if op = "let" then armLet f args env st0
        else if op = "notify" then armNotify f args env st0
        else if op = "search" then armSearch O f args env st0
        else if op = "calc" then armCalc O f args env st0
        else if op = "db-query" then armDbQuery f args env st0
        else if op = "math" then armMath O f args env st0
        else if op = "step_math" then armStepMath O f args env st0
        else if op = "ask_user" then armAskUser O f args env st0
        else armTool O f op args env st0
      | _ => armTool O f (pyStrS h) args env st0)

/-- `ContextualEvaluator._evaluate_basic`: the dispatch step wrapped
in the outer try/except, whose handler logs the error and clears the
whole path stack (`logger.current_path.clear()`) before re-raising. -/
def evalB (O : Oracles) : Nat → SExpr → Env → SyncState → Res
  | 0, _, env, st => (.error .outOfFuel, env, { st with path := [] })
  | fuel + 1, e, env, st =>
    match evalCore O (evalB O fuel) e env st with
    | (.ok v, env1, st1) => (.ok v, env1, st1)
    | (.error e1, env1, st1) => (.error e1, env1, { st1 with path := [] })

/-! ## Asynchronous evaluator (core/async_evaluator.py)

`AsyncContextualEvaluator._evaluate_basic_async` re-implements the
dispatch without the trace logger and without `set`/`while`/`handle`
arms; unknown operators raise `NotImplementedError` instead of tool
dispatch.  The environment is never mutated outside a fresh `let`
child, so it is passed as a pure value; each call returns the
result-or-exception plus the chronological effect log.

`asyncio.gather(..., return_exceptions=False)` propagates the first
exception *in completion order*.  Completion order is made explicit:
`pol n` is the completion order (a list of branch indices) of a gather
over `n` awaitables; `fun n => List.range n` is run-to-completion in
declaration order. -/

/-- Result of one async evaluation: result-or-exception and effects. -/
abbrev ARes := Except EvalErr Val × List Effect

/-- The async evaluator's only out-of-scope backend: the sympy-based
safe calculator behind `calc` (total: the arm converts every backend
failure into an ordinary string result). -/
structure AsyncOracles where
  calcFn : String → Val

/-- Error of branch `i`, if branch `i` exists and failed. -/
def errAt (rs : List (Except EvalErr Val)) (i : Nat) : Option EvalErr :=
  match rs.get? i with
  | some (.error e) => some e
  | _ => none

/-- `asyncio.gather(..., return_exceptions=False)` over finished
branch results `rs` with completion order `sched`: when every branch
succeeds the values are returned in declaration order; otherwise the
error of the first branch to fail in completion order is raised (with
declaration order as fallback if `sched` misses every failing index). -/
def gatherA (rs : List (Except EvalErr Val)) (sched : List Nat) :
    Except EvalErr (List Val) :=
  match firstErrOf rs with
  | none => .ok (okVals rs)
  | some eDecl =>
    match sched.findSome? (errAt rs) with
    | some e => .error e
    | none => .error eDecl

/-- The async `seq` loop. -/
def evalSeqA (f : SExpr → Env → ARes) :
    List SExpr → Val → List Effect → Env → ARes
  | [], acc, effs, _ => (.ok acc, effs)
  | a :: rest, _, effs, env =>
    match f a env with
    | (.ok v, effs1) => evalSeqA f rest v (effs ++ effs1) env
    | (.error e, effs1) => (.error e, effs ++ effs1)

/-- All branches of an async `par`/binding gather, evaluated
independently against the same environment (the deterministic
projection lists each branch's effects in declaration order). -/
def evalBranchesA (f : SExpr → Env → ARes) (args : List SExpr) (env : Env) :
    List (Except EvalErr Val) × List Effect :=
  let prs := args.map (fun a => f a env)
  (prs.map (fun r => r.1), (prs.map (fun r => r.2)).flatten)

/-- The format-validation pass of the async `let` arm: every binding
must be a two-element list headed by a string name, checked for all
bindings before any binding expression task runs. -/
def checkBindingsA : List SExpr → Except EvalErr (List (String × SExpr))
  | [] => .ok []
  | b :: rest =>
    match b with
    | .list [.str var, valExpr] =>
      (checkBindingsA rest).map (fun l => (var, valExpr) :: l)
    | .list [_, _] =>
      .error (.typeError "変数名は文字列である必要があります")
    | _ =>
      .error (.typeError "let式の束縛は[変数名, 値]の形式である必要があります")

/-- One dispatch step of `_evaluate_basic_async`, with `f` the
recursive occurrence and `pol` the gather completion-order policy. -/
def evalACore (O : AsyncOracles) (pol : Nat → List Nat)
    (f : SExpr → Env → ARes) (e : SExpr) (env : Env) : ARes :=
  match e with
  | .str s =>
    match env.lookupChain s with
    | some v => (.ok v, [])
    | none => (.ok (.vStr s), [])
  | .int n => (.ok (.vInt n), [])
  | .float q => (.ok (.vFloat q), [])
  | .list [] => (.ok (.vList []), [])
  | .list (h :: args) =>
    match h, args with
    | .str "plan", a :: _ => f a env
    | .str "plan", [] => (.error (.indexError "list index out of range"), [])
    | .str "seq", _ => evalSeqA f args .vNone [] env
    | .str "par", _ =>
      let (rs, effs) := evalBranchesA f args env
      match gatherA rs (pol args.length) with
      | .ok vs => (.ok (.vList vs), effs)
      | .error e1 => (.error e1, effs)
    | .str "if", [] => (.error (.indexError "list index out of range"), [])
    | .str "if", cnd :: rest =>
      match f cnd env with
      | (.ok cv, effs1) =>
        if truthy cv then
          match rest with
          | thn :: _ =>
            let (r2, effs2) := f thn env
            (r2, effs1 ++ effs2)
          | [] => (.error (.indexError "list index out of range"), effs1)
        else
          match rest with
          | _ :: els :: _ =>
            let (r2, effs2) := f els env
            (r2, effs1 ++ effs2)
          | _ => (.ok .vNone, effs1)
      | r1 => r1
    | .str "let", bindingsList :: body :: _ =>
      match bindingsList with
      | .list bs =>
        match checkBindingsA bs with
        | .error e1 => (.error e1, [])
        | .ok pairs =>
          let (rs, effs) := evalBranchesA f (pairs.map (fun p => p.2)) env
          match gatherA rs (pol pairs.length) with
          | .error e1 => (.error e1, effs)
          | .ok vs =>
            let childBs :=
              (List.zip (pairs.map (fun p => p.1)) vs).foldl
                (fun acc nv => assocSet acc nv.1 nv.2) []
            let (r2, effs2) := f body (.child childBs env)
            (r2, effs ++ effs2)
      | _ =>
        (.error (.typeError "let式の束縛リストはリストである必要があります"), [])
    | .str "let", _ => (.error (.indexError "list index out of range"), [])
    | .str "notify", a :: _ =>
      match f a env with
      | (.ok msg, effs1) => (.ok msg, effs1 ++ [.notifyE msg])
      | r1 => r1
    | .str "notify", [] => (.error (.indexError "list index out of range"), [])
    | .str "search", a :: _ =>
      match f a env with
      | (.ok q, effs1) =>
        (.ok (.vStr ("検索結果: " ++ pyStr q)), effs1 ++ [.searchE q])
      | r1 => r1
    | .str "search", [] => (.error (.indexError "list index out of range"), [])
    | .str "calc", a :: _ =>
      match f a env with
      | (.ok v, effs1) =>
        (.ok (O.calcFn (pyStr v)), effs1 ++ [.calcE (pyStr v)])
      | r1 => r1
    | .str "calc", [] => (.error (.indexError "list index out of range"), [])
    | .str "db-query", a :: _ =>
      match f a env with
      | (.ok q, effs1) =>
        (.ok (.vStr ("DB結果: " ++ pyStr q)), effs1 ++ [.dbQueryE q])
      | r1 => r1
    | .str "db-query", [] =>
      (.error (.indexError "list index out of range"), [])
    | _, _ =>
      let opStr := match h with
        | .str s => s
        | other => pyStrS other
      (.error (.notImplementedError ("Unknown operation: " ++ opStr)), [])

/-- `AsyncContextualEvaluator._evaluate_basic_async` with fuel. -/
def evalA (O : AsyncOracles) (pol : Nat → List Nat) :
    Nat → SExpr → Env → ARes
  | 0, _, _ => (.error .outOfFuel, [])
  | fuel + 1, e, env => evalACore O pol (evalA O pol fuel) e env

/-- `AsyncContextualEvaluator.evaluate_with_context`: the security
gate runs first over the whole AST; a failed gate raises
`SecurityError` before `_evaluate_basic_async` is entered, so no
effect is ever produced. -/
def asyncEvaluateWithContext (O : AsyncOracles) (pol : Nat → List Nat)
    (fuel : Nat) (expr : SExpr) (env : Env) (is_admin : Bool) : ARes :=
  match validate_s_expression expr is_admin fuel with
  | (true, _) => evalA O pol fuel expr env
  | (false, m) => (.error (.securityError ("セキュリティ検証失敗: " ++ m)), [])

/-! ## Concrete fixtures used by witnesses and counterexamples -/

/-- A concrete oracle bundle for closed evaluations (the programs used
by witnesses and counterexamples never reach an oracle whose output
matters). -/
def O0 : Oracles :=
  { calcFn := fun _ => Val.vNone
    searchFn := fun _ => Val.vNone
    mathFn := fun _ _ _ => Val.vNone
    stepMathFn := fun _ _ _ => Val.vNone
    askUserFn := fun _ _ _ => none
    toolFn := fun _ _ => Val.vNone }

/-- A concrete async oracle. -/
def OA0 : AsyncOracles := { calcFn := fun _ => Val.vNone }

/-- Root environment with no bindings. -/
def env0 : Env := .root []

/-- Fresh logger state. -/
def st0 : SyncState := { path := [], effects := [] }

/-- Run-to-completion-in-declaration-order gather policy. -/
def declOrder (n : Nat) : List Nat := List.range n

/-! ## Claim theorems -/

/-- C6: for every environment chain and name, `set(name, value)`
mutates the binding in the nearest enclosing scope that already
defines the name (frame `i` of the chain, innermost first, where every
frame nearer than `i` does not define it), leaving every other frame
unchanged; and when no frame in the chain defines the name it raises
`NameError`, mutating nothing (the returned error carries no modified
environment — `Environment.set` only ever assigns at the frame where
the name was found). -/
theorem claim6_env_set (env : Env) (x : String) (v : Val) :
    ((∀ bs ∈ env.frames, containsVar bs x = false) →
      env.setVar x v =
        .error (.nameError ("Name \x27" ++ x ++ "\x27 is not defined")))
    ∧ (∀ i bs, env.frames.get? i = some bs → containsVar bs x = true →
        (∀ j bs', j < i → env.frames.get? j = some bs' →
          containsVar bs' x = false) →
        (env.setVar x v).map Env.frames =
          .ok (env.frames.set i (updAssoc bs x v))) := by
  induction env with
  | root bs0 =>
    constructor
    · intro h
      have h0 : containsVar bs0 x = false := h bs0 (by simp [Env.frames])
      simp [Env.setVar, h0]
    · intro i bs h1 h2 _h3
      match i with
      | 0 =>
        simp [Env.frames] at h1
        subst h1
        simp [Env.setVar, h2, Env.frames, Except.map]
      | j + 1 =>
        simp [Env.frames] at h1
  | child bs0 p ih =>
    constructor
    · intro h
      have h0 : containsVar bs0 x = false := h bs0 (by simp [Env.frames])
      have hp : ∀ bs ∈ p.frames, containsVar bs x = false := by
        intro bs hbs
        exact h bs (by simp [Env.frames, hbs])
      simp [Env.setVar, h0, ih.1 hp, Except.map]
    · intro i bs h1 h2 h3
      match i with
      | 0 =>
        simp [Env.frames] at h1
        subst h1
        simp [Env.setVar, h2, Env.frames, Except.map]
      | j + 1 =>
        have h0 : containsVar bs0 x = false := by
          exact h3 0 bs0 (by omega) (by simp [Env.frames])
        have h1' : p.frames.get? j = some bs := by
          simpa [Env.frames] using h1
        have h3' : ∀ k bs', k < j → p.frames.get? k = some bs' →
            containsVar bs' x = false := by
          intro k bs' hk hbs'
          exact h3 (k + 1) bs' (by omega) (by simpa [Env.frames] using hbs')
        have hih := ih.2 j bs h1' h2 h3'
        match hps : p.setVar x v with
        | .ok p1 =>
          rw [hps] at hih
          simp [Except.map] at hih
          simp [Env.setVar, h0, hps, Env.frames, hih, Except.map]
        | .error e =>
          rw [hps] at hih
          simp [Except.map] at hih

/-- C6 witness: in the chain `child [("y", 0)] (root [("x", 1)])`,
setting `x` to 5 rewrites exactly the root frame. -/
theorem claim6_env_set_witness :
    ((Env.child [("y", .vInt 0)] (.root [("x", .vInt 1)])).setVar
        "x" (.vInt 5)).map Env.frames =
      .ok [[("y", .vInt 0)], [("x", .vInt 5)]] := by
  have h := (claim6_env_set
    (.child [("y", .vInt 0)] (.root [("x", .vInt 1)])) "x" (.vInt 5)).2
    1 [("x", .vInt 1)] (by rfl) (by rfl)
    (by
      intro j bs' hj hbs'
      match j with
      | 0 =>
        simp [Env.frames] at hbs'
        subst hbs'
        rfl
      | k + 1 => omega)
  simpa using h

/-! ### Step equations

The dispatch functions are large pattern matches; these definitional
equations expose the single arm a proof needs. -/

/-- One unfolding of the synchronous evaluator: dispatch plus the
error handler that clears the path stack. -/
theorem evalB_succ (O : Oracles) (fuel : Nat) (e : SExpr) (env : Env)
    (st : SyncState) :
    evalB O (fuel + 1) e env st =
      match evalCore O (evalB O fuel) e env st with
      | (.ok v, env1, st1) => (.ok v, env1, st1)
      | (.error e1, env1, st1) => (.error e1, env1, { st1 with path := [] }) :=
  rfl

/-- String-atom arm of the synchronous dispatch. -/
theorem evalCore_str (O : Oracles) (f : SExpr → Env → SyncState → Res)
    (s : String) (env : Env) (st : SyncState) :
    evalCore O f (.str s) env st =
      match env.lookupChain s with
      | some v => (.ok v, env, st)
      | none => (.ok (.vStr s), env, st) := rfl

/-- `par` arm of the synchronous dispatch. -/
theorem evalCore_par (O : Oracles) (f : SExpr → Env → SyncState → Res)
    (args : List SExpr) (env : Env) (st : SyncState) :
    evalCore O f (.list (.str "par" :: args)) env st =
      (match (match evalPar f args 1 env (pushP 0 st) with
        | (rs, env1, st1) =>
          (match firstErrOf rs with
          | some e1 => (.error e1, env1, st1)
          | none => (.ok (.vList (okVals rs)), env1, st1) : Res)) with
      | (.ok v, env1, st1) => (.ok v, env1, popP st1)
      | rr => rr) := rfl

/-- One unfolding of the asynchronous evaluator. -/
theorem evalA_succ (O : AsyncOracles) (pol : Nat → List Nat) (fuel : Nat)
    (e : SExpr) (env : Env) :
    evalA O pol (fuel + 1) e env = evalACore O pol (evalA O pol fuel) e env :=
  rfl

/-- String-atom arm of the asynchronous dispatch. -/
theorem evalACore_str (O : AsyncOracles) (pol : Nat → List Nat)
    (f : SExpr → Env → ARes) (s : String) (env : Env) :
    evalACore O pol f (.str s) env =
      match env.lookupChain s with
      | some v => (.ok v, [])
      | none => (.ok (.vStr s), []) := rfl

/-- `par` arm of the asynchronous dispatch. -/
theorem evalACore_par (O : AsyncOracles) (pol : Nat → List Nat)
    (f : SExpr → Env → ARes) (args : List SExpr) (env : Env) :
    evalACore O pol f (.list (.str "par" :: args)) env =
      (match evalBranchesA f args env with
      | (rs, effs) =>
        match gatherA rs (pol args.length) with
        | .ok vs => (.ok (.vList vs), effs)
        | .error e1 => (.error e1, effs)) := rfl

/-- C10: a string atom with no binding anywhere in the scope chain
evaluates, in both the synchronous and the asynchronous evaluator, to
the string itself: the `NameError` of the chain lookup is caught
inside the atom case and never escapes. -/
theorem claim10_unbound_string (O : Oracles) (OA : AsyncOracles)
    (pol : Nat → List Nat) (fuel : Nat) (s : String) (env : Env)
    (st : SyncState) (h : env.lookupChain s = none) :
    evalB O (fuel + 1) (.str s) env st = (.ok (.vStr s), env, st)
    ∧ evalA OA pol (fuel + 1) (.str s) env = (.ok (.vStr s), []) := by
  constructor
  · rw [evalB_succ, evalCore_str, h]
  · rw [evalA_succ, evalACore_str, h]

/-- C10 witness: the unbound symbol `zzz` in the empty root scope. -/
theorem claim10_unbound_string_witness :
    evalB O0 1 (.str "zzz") env0 st0 = (.ok (.vStr "zzz"), env0, st0)
    ∧ evalA OA0 declOrder 1 (.str "zzz") env0 = (.ok (.vStr "zzz"), []) :=
  claim10_unbound_string O0 OA0 declOrder 0 "zzz" env0 st0 rfl

/-- A branch-result list with no error consists of ok results only. -/
theorem firstErrOf_none_iff (rs : List (Except EvalErr Val)) :
    firstErrOf rs = none ↔ ∀ r ∈ rs, ∃ v, r = .ok v := by
  induction rs with
  | nil => simp [firstErrOf]
  | cons r rest ih =>
    cases r with
    | ok v => simp [firstErrOf, ih]
    | error e => simp [firstErrOf]

/-- On an all-ok branch-result list, `okVals` preserves the length and
keeps each branch value at its declaration index. -/
theorem okVals_get (rs : List (Except EvalErr Val))
    (h : firstErrOf rs = none) :
    (okVals rs).length = rs.length ∧
      ∀ i v, rs.get? i = some (.ok v) → (okVals rs).get? i = some v := by
  induction rs with
  | nil => simp [okVals]
  | cons r rest ih =>
    cases r with
    | error e => simp [firstErrOf] at h
    | ok v =>
      have h' : firstErrOf rest = none := by simpa [firstErrOf] using h
      have ih' := ih h'
      constructor
      · simp [okVals, Except.toOption, List.filterMap_cons]
        simpa [okVals] using ih'.1
      · intro i w hw
        match i with
        | 0 =>
          simp at hw
          simp [okVals, Except.toOption, List.filterMap_cons, hw]
        | j + 1 =>
          simp at hw
          have := ih'.2 j w (by simpa using hw)
          simpa [okVals, Except.toOption, List.filterMap_cons] using this

/-- `evalPar` produces one result per declared branch. -/
theorem evalPar_length (f : SExpr → Env → SyncState → Res)
    (args : List SExpr) (i : Nat) (env : Env) (st : SyncState) :
    (evalPar f args i env st).1.length = args.length := by
  induction args generalizing i env st with
  | nil => simp [evalPar]
  | cons a rest ih =>
    simp only [evalPar]
    cases hsub : subEval f i a env st with
    | mk r rest1 =>
      cases hrec : evalPar f rest (i + 1) rest1.1 rest1.2 with
      | mk rs s2 =>
        simpa [hrec] using ih (i + 1) rest1.1 rest1.2

/-- C2: when every branch of a `(par e1 ... en)` succeeds, both
evaluators return the list of the branch values in declaration order —
the synchronous one collects `future.result()` in submission order,
the asynchronous one gets declaration order from `asyncio.gather`
regardless of the completion-order policy `pol`. -/
theorem claim2_par_order (O : Oracles) (OA : AsyncOracles)
    (pol : Nat → List Nat) (fuel : Nat) (args : List SExpr) (env : Env)
    (st : SyncState) :
    (∀ rs env1 st1,
      evalPar (evalB O fuel) args 1 env (pushP 0 st) = (rs, env1, st1) →
      firstErrOf rs = none →
      evalB O (fuel + 1) (.list (.str "par" :: args)) env st =
          (.ok (.vList (okVals rs)), env1, popP st1)
        ∧ (okVals rs).length = args.length
        ∧ ∀ i v, rs.get? i = some (.ok v) → (okVals rs).get? i = some v)
    ∧ (∀ rs effs,
      evalBranchesA (evalA OA pol fuel) args env = (rs, effs) →
      firstErrOf rs = none →
      evalA OA pol (fuel + 1) (.list (.str "par" :: args)) env =
          (.ok (.vList (okVals rs)), effs)
        ∧ rs = args.map (fun a => (evalA OA pol fuel a env).1)
        ∧ ∀ i v, rs.get? i = some (.ok v) → (okVals rs).get? i = some v) := by
  constructor
  · intro rs env1 st1 hpar hok
    have hlen : rs.length = args.length := by
      have := evalPar_length (evalB O fuel) args 1 env (pushP 0 st)
      rw [hpar] at this
      simpa using this
    refine ⟨?_, ?_, (okVals_get rs hok).2⟩
    · rw [evalB_succ, evalCore_par, hpar]
      simp [hok]
    · rw [(okVals_get rs hok).1, hlen]
  · intro rs effs hbr hok
    refine ⟨?_, ?_, (okVals_get rs hok).2⟩
    · rw [evalA_succ, evalACore_par, hbr]
      simp [gatherA, hok]
    · have : rs = (evalBranchesA (evalA OA pol fuel) args env).1 := by
        rw [hbr]
      simpa [evalBranchesA] using this

/-- C2 witness: `(par 1 2 3)` in both evaluators. -/
theorem claim2_par_order_witness :
    evalB O0 2 (.list [.str "par", .int 1, .int 2, .int 3]) env0 st0 =
        (.ok (.vList [.vInt 1, .vInt 2, .vInt 3]), env0, st0)
    ∧ evalA OA0 declOrder 2 (.list [.str "par", .int 1, .int 2, .int 3])
        env0 = (.ok (.vList [.vInt 1, .vInt 2, .vInt 3]), []) := by
  have h2 := claim2_par_order O0 OA0 declOrder 1
    [.int 1, .int 2, .int 3] env0 st0
  have hs := (h2.1 [.ok (.vInt 1), .ok (.vInt 2), .ok (.vInt 3)]
    env0 (pushP 0 st0) rfl rfl).1
  have ha := (h2.2 [.ok (.vInt 1), .ok (.vInt 2), .ok (.vInt 3)]
    [] rfl rfl).1
  exact ⟨by simpa [okVals, Except.toOption, popP, pushP, st0] using hs,
    by simpa [okVals, Except.toOption] using ha⟩

/-- C3 counterexample: in the asynchronous evaluator, a `(par (foo)
(bar))` whose two branches both fail surfaces the error of branch 1
(`bar`) when the completion order is `[1, 0]` — not the error of the
failing branch with the smallest declaration index (`foo`), which is a
different error. -/
theorem claim3_counterexample :
    evalA OA0 (fun _ => [1, 0]) 3
        (.list [.str "par", .list [.str "foo"], .list [.str "bar"]]) env0 =
      (.error (.notImplementedError "Unknown operation: bar"), [])
    ∧ (evalA OA0 (fun _ => [1, 0]) 2 (.list [.str "foo"]) env0).1 =
      .error (.notImplementedError "Unknown operation: foo")
    ∧ EvalErr.notImplementedError "Unknown operation: bar" ≠
      .notImplementedError "Unknown operation: foo" := by
  refine ⟨rfl, rfl, ?_⟩
  intro h
  exact absurd (EvalErr.notImplementedError.inj h) (by decide)

/-- C3 amended: in the synchronous evaluator every branch of a failing
`par` still runs to completion (the thread pool is joined, nothing is
cancelled) and the surfaced error is that of the failing branch with
the smallest declaration index; in the asynchronous evaluator the
surfaced error is that of the first branch to fail in gather
completion order (which equals declaration order only under the
declaration-order completion policy), and cancellation of the
remaining tasks is requested but not awaited. -/
theorem claim3_amended (O : Oracles) (OA : AsyncOracles)
    (pol : Nat → List Nat) (fuel : Nat) (args : List SExpr) (env : Env)
    (st : SyncState) :
    (∀ rs env1 st1 e,
      evalPar (evalB O fuel) args 1 env (pushP 0 st) = (rs, env1, st1) →
      firstErrOf rs = some e →
      evalB O (fuel + 1) (.list (.str "par" :: args)) env st =
        (.error e, env1, { st1 with path := [] }))
    ∧ (∀ rs e, firstErrOf rs = some e →
        ∃ j, rs.get? j = some (.error e) ∧
          ∀ k < j, ∃ v, rs.get? k = some (.ok v))
    ∧ (∀ rs effs eDecl e,
      evalBranchesA (evalA OA pol fuel) args env = (rs, effs) →
      firstErrOf rs = some eDecl →
      (pol args.length).findSome? (errAt rs) = some e →
      evalA OA pol (fuel + 1) (.list (.str "par" :: args)) env =
        (.error e, effs)) := by
  refine ⟨?_, ?_, ?_⟩
  · intro rs env1 st1 e hpar herr
    rw [evalB_succ, evalCore_par, hpar]
    simp [herr]
  · intro rs e herr
    induction rs with
    | nil => simp [firstErrOf] at herr
    | cons r rest ih =>
      cases r with
      | error e1 =>
        simp [firstErrOf] at herr
        exact ⟨0, by simp [herr], by omega⟩
      | ok v =>
        have herr' : firstErrOf rest = some e := by
          simpa [firstErrOf] using herr
        obtain ⟨j, hj, hlt⟩ := ih herr'
        refine ⟨j + 1, by simpa using hj, ?_⟩
        intro k hk
        match k with
        | 0 => exact ⟨v, by simp⟩
        | k1 + 1 =>
          obtain ⟨w, hw⟩ := hlt k1 (by omega)
          exact ⟨w, by simpa using hw⟩
  · intro rs effs eDecl e hbr hdecl hsched
    rw [evalA_succ, evalACore_par, hbr]
    simp [gatherA, hdecl, hsched]

/-- C3 witness: a synchronous `(par 7 (set q 1))` surfaces the
`NameError` of the second branch (the only failing one), and the
asynchronous two-failing-branch `par` under completion order `[1, 0]`
surfaces the error of branch 1. -/
theorem claim3_amended_witness :
    evalB O0 3
        (.list [.str "par", .int 7, .list [.str "set", .str "q", .int 1]])
        env0 st0 =
      (.error (.nameError "Name \x27q\x27 is not defined"), env0,
        { path := [], effects := [] })
    ∧ evalA OA0 (fun _ => [1, 0]) 3
        (.list [.str "par", .list [.str "foo"], .list [.str "bar"]]) env0 =
      (.error (.notImplementedError "Unknown operation: bar"), []) := by
  have h := claim3_amended O0 OA0 (fun _ => [1, 0]) 2
    [.int 7, .list [.str "set", .str "q", .int 1]] env0 st0
  have hs := h.1 [.ok (.vInt 7),
      .error (.nameError "Name \x27q\x27 is not defined")]
    env0 { path := [], effects := [] }
    (.nameError "Name \x27q\x27 is not defined") rfl rfl
  have h2 := claim3_amended O0 OA0 (fun _ => [1, 0]) 2
    [.list [.str "foo"], .list [.str "bar"]] env0 st0
  have ha := h2.2.2 [.error (.notImplementedError "Unknown operation: foo"),
      .error (.notImplementedError "Unknown operation: bar")] []
    (.notImplementedError "Unknown operation: foo")
    (.notImplementedError "Unknown operation: bar") rfl rfl rfl
  exact ⟨hs, ha⟩

/-- Two-argument `while` arm of the synchronous dispatch (default
`max_iterations = 1000`). -/
theorem evalCore_while2 (O : Oracles) (f : SExpr → Env → SyncState → Res)
    (c b : SExpr) (env : Env) (st : SyncState) :
    evalCore O f (.list [.str "while", c, b]) env st =
      (match whileCont f c b (.vInt 1000) env (pushP 0 st) with
      | (.ok v, env1, st1) => (.ok v, env1, popP st1)
      | rr => rr) := rfl

/-- Three-argument `while` arm with an integer-literal bound (the
`isinstance(max_iterations, int)` branch: the bound is not evaluated). -/
theorem evalCore_while3_int (O : Oracles) (f : SExpr → Env → SyncState → Res)
    (c b : SExpr) (n : Int) (env : Env) (st : SyncState) :
    evalCore O f (.list [.str "while", c, b, .int n]) env st =
      (match whileCont f c b (.vInt n) env (pushP 0 st) with
      | (.ok v, env1, st1) => (.ok v, env1, popP st1)
      | rr => rr) := rfl

/-- Three-argument `while` arm with a float-literal bound: the literal
is first evaluated (to itself), then validated. -/
theorem evalCore_while3_float (O : Oracles)
    (f : SExpr → Env → SyncState → Res) (c b : SExpr) (q : Rat) (env : Env)
    (st : SyncState) :
    evalCore O f (.list [.str "while", c, b, .float q]) env st =
      (match (match f (.float q) env (pushP 0 st) with
        | (.ok mv, env1, st1) => whileCont f c b mv env1 st1
        | r1 => r1) with
      | (.ok v, env1, st1) => (.ok v, env1, popP st1)
      | rr => rr) := rfl

/-- Float atoms evaluate to themselves. -/
theorem evalB_float (O : Oracles) (fuel : Nat) (q : Rat) (env : Env)
    (st : SyncState) :
    evalB O (fuel + 1) (.float q) env st = (.ok (.vFloat q), env, st) := rfl

/-- An integer cast to `Rat` floors to itself. -/
theorem ratFloorIntCast (n : Int) : ((n : Rat)).floor = n := by
  simp [Rat.floor]

/-- `whileCont` on a positive in-range integer bound enters the loop
with budget `n.toNat` and iteration counter 0. -/
theorem whileCont_int_pos (f : SExpr → Env → SyncState → Res) (c b : SExpr)
    (n : Int) (env : Env) (st : SyncState) (h1 : 0 < n) (h2 : n ≤ 10000) :
    whileCont f c b (.vInt n) env st =
      (let x := runWhileAux f c b n.toNat 0 .vNone env st
       (x.1.1, x.2)) := by
  unfold whileCont
  have hq : ¬ ((n : Rat) ≤ 0) := by
    simp only [Int.cast_nonpos, not_le]
    exact h1
  simp only [numOfVal, ratFloorIntCast, hq, if_false]
  have hn : ¬ (n.toNat > 10000) := by omega
  simp [hn]

/-- `whileCont` on a non-positive integer bound raises `TypeError`
before the loop starts. -/
theorem whileCont_nonpos (f : SExpr → Env → SyncState → Res) (c b : SExpr)
    (n : Int) (env : Env) (st : SyncState) (h1 : n ≤ 0) :
    whileCont f c b (.vInt n) env st =
      (.error (.typeError
        ("最大反復数は正の数値である必要があります: " ++ pyStr (.vInt n))), env, st) := by
  unfold whileCont
  have hq : ((n : Rat) ≤ 0) := by
    simp only [Int.cast_nonpos]
    exact h1
  simp [numOfVal, hq]

/-- `whileCont` on an integer bound above the hard ceiling raises
`ValueError` before the loop starts. -/
theorem whileCont_toobig (f : SExpr → Env → SyncState → Res) (c b : SExpr)
    (n : Int) (env : Env) (st : SyncState) (h1 : 0 < n) (h2 : 10000 < n) :
    whileCont f c b (.vInt n) env st =
      (.error (.valueError ("最大反復数が制限を超えています: " ++
        toString n.toNat ++ " > 10000")), env, st) := by
  unfold whileCont
  have hq : ¬ ((n : Rat) ≤ 0) := by
    simp only [Int.cast_nonpos, not_le]
    exact h1
  have hn : n.toNat > 10000 := by omega
  simp [numOfVal, ratFloorIntCast, hq, hn]

/-- `whileCont` accepts any positive float bound, truncating it with
`int(...)` (floor, for positive values) before the ceiling check. -/
theorem whileCont_float (f : SExpr → Env → SyncState → Res) (c b : SExpr)
    (q : Rat) (env : Env) (st : SyncState) (h1 : 0 < q)
    (h2 : q.floor.toNat ≤ 10000) :
    whileCont f c b (.vFloat q) env st =
      (let x := runWhileAux f c b q.floor.toNat 0 .vNone env st
       (x.1.1, x.2)) := by
  unfold whileCont
  have hq : ¬ (q ≤ 0) := not_le.mpr h1
  have hn : ¬ (q.floor.toNat > 10000) := by omega
  simp [numOfVal, hq, hn]

/-- The loop-counter bound: `runWhileAux` increments the iteration
counter once per body evaluation and never runs it beyond the budget. -/
theorem runWhileAux_count_le (f : SExpr → Env → SyncState → Res)
    (c b : SExpr) :
    ∀ remaining count acc env st,
      ((runWhileAux f c b remaining count acc env st).1).2 ≤
        count + remaining := by
  intro remaining
  induction remaining with
  | zero => intro count acc env st; simp [runWhileAux]
  | succ r ih =>
    intro count acc env st
    simp only [runWhileAux]
    rcases h1 : subEval f 1 c env st with ⟨r1, env1, st1⟩
    cases r1 with
    | error e => show count ≤ count + (r + 1); omega
    | ok cv =>
      by_cases ht : truthy cv
      · simp only [ht, if_true]
        rcases h2 : subEval f 2 b env1 st1 with ⟨r2, env2, st2⟩
        cases r2 with
        | error e => show count ≤ count + (r + 1); omega
        | ok bv =>
          show (runWhileAux f c b r (count + 1) bv env2 st2).1.2 ≤
            count + (r + 1)
          have := ih (count + 1) bv env2 st2
          omega
      · simp only [ht, if_false]
        show count ≤ count + (r + 1)
        omega

/-- C4 counterexample: `max_iterations = 2.5` is not a positive
integer (denominator 2), yet `(while (< 1 2) (notify "x") 2.5)` raises
no error at all: the bound is truncated to 2, the body runs twice (two
notify effects) and the 2nd body result is returned. -/
theorem claim4_counterexample :
    evalB O0 30
        (.list [.str "while", .list [.str "<", .int 1, .int 2],
          .list [.str "notify", .str "x"], .float (Rat.mk' 5 2)]) env0 st0 =
      (.ok (.vStr "x"), env0,
        { path := [], effects := [.notifyE (.vStr "x"), .notifyE (.vStr "x")] })
    ∧ (Rat.mk' 5 2).den ≠ 1 := by
  exact ⟨rfl, by decide⟩

/-- C4 amended: `(while cond body max_iterations)` defaults the bound
to 1000; a positive numeric bound (int, or float truncated toward zero
by `int(...)`) at most 10000 runs the loop whose iteration counter
never exceeds the bound; a non-positive integer bound raises
`TypeError` and an integer bound above 10000 raises `ValueError`,
both before `cond` or `body` is ever evaluated (the error and final
state do not depend on `cond`/`body`, and the effect log is
unchanged); a positive non-integer float bound is accepted and
truncated, not rejected. -/
theorem claim4_amended (O : Oracles) (fuel : Nat) (c b : SExpr) (env : Env)
    (st : SyncState) :
    (evalB O (fuel + 1) (.list [.str "while", c, b]) env st =
      evalB O (fuel + 1) (.list [.str "while", c, b, .int 1000]) env st)
    ∧ (∀ n : Int, 0 < n → n ≤ 10000 →
      evalB O (fuel + 1) (.list [.str "while", c, b, .int n]) env st =
        (match runWhileAux (evalB O fuel) c b n.toNat 0 .vNone env
            (pushP 0 st) with
        | ((.ok v, _), env1, st1) => (.ok v, env1, popP st1)
        | ((.error e1, _), env1, st1) => (.error e1, env1,
            { st1 with path := [] })))
    ∧ (∀ remaining count acc env2 st2,
      ((runWhileAux (evalB O fuel) c b remaining count acc env2 st2).1).2 ≤
        count + remaining)
    ∧ (∀ n : Int, n ≤ 0 →
      evalB O (fuel + 1) (.list [.str "while", c, b, .int n]) env st =
        (.error (.typeError
          ("最大反復数は正の数値である必要があります: " ++ pyStr (.vInt n))),
          env, { st with path := [] }))
    ∧ (∀ n : Int, 10000 < n →
      evalB O (fuel + 1) (.list [.str "while", c, b, .int n]) env st =
        (.error (.valueError ("最大反復数が制限を超えています: " ++
          toString n.toNat ++ " > 10000")), env, { st with path := [] }))
    ∧ (∀ q : Rat, 0 < q → q.floor.toNat ≤ 10000 →
      evalB O (fuel + 2) (.list [.str "while", c, b, .float q]) env st =
        (match runWhileAux (evalB O (fuel + 1)) c b q.floor.toNat 0 .vNone env
            (pushP 0 st) with
        | ((.ok v, _), env1, st1) => (.ok v, env1, popP st1)
        | ((.error e1, _), env1, st1) => (.error e1, env1,
            { st1 with path := [] }))) := by
  refine ⟨rfl, ?_, ?_, ?_, ?_, ?_⟩
  · intro n h1 h2
    rw [evalB_succ, evalCore_while3_int, whileCont_int_pos _ _ _ _ _ _ h1 h2]
    rcases h : runWhileAux (evalB O fuel) c b n.toNat 0 .vNone env
        (pushP 0 st) with ⟨⟨r, k⟩, env1, st1⟩
    cases r with
    | ok v => simp
    | error e => simp
  · exact runWhileAux_count_le (evalB O fuel) c b
  · intro n h1
    rw [evalB_succ, evalCore_while3_int, whileCont_nonpos _ _ _ _ _ _ h1]
    rfl
  · intro n h1
    rw [evalB_succ, evalCore_while3_int,
      whileCont_toobig _ _ _ _ _ _ (by omega) h1]
    rfl
  · intro q h1 h2
    rw [evalB_succ, evalCore_while3_float]
    simp only [evalB_float]
    rw [whileCont_float _ _ _ _ _ _ h1 h2]
    rcases h : runWhileAux (evalB O (fuel + 1)) c b q.floor.toNat 0 .vNone env
        (pushP 0 st) with ⟨⟨r, k⟩, env1, st1⟩
    cases r with
    | ok v => simp
    | error e => simp

/-- C4 witness: the spec's own loop-bound program
`(while (< 1 2) (notify "x") 5)` performs exactly 5 iterations
(counter 5, five notify effects) and returns the 5th notify result;
and the `max_iterations = 0` and `max_iterations = 20000` programs are
rejected before any evaluation. -/
theorem claim4_amended_witness :
    evalB O0 3
        (.list [.str "while", .list [.str "<", .int 1, .int 2],
          .list [.str "notify", .str "x"], .int 5]) env0 st0 =
      (.ok (.vStr "x"), env0,
        { path := [],
          effects := [.notifyE (.vStr "x"), .notifyE (.vStr "x"),
            .notifyE (.vStr "x"), .notifyE (.vStr "x"),
            .notifyE (.vStr "x")] })
    ∧ ((runWhileAux (evalB O0 2) (.list [.str "<", .int 1, .int 2])
        (.list [.str "notify", .str "x"]) 5 0 .vNone env0
        (pushP 0 st0)).1).2 = 5
    ∧ evalB O0 3
        (.list [.str "while", .list [.str "<", .int 1, .int 2],
          .list [.str "notify", .str "x"], .int 0]) env0 st0 =
      (.error (.typeError "最大反復数は正の数値である必要があります: 0"),
        env0, { path := [], effects := [] })
    ∧ evalB O0 3
        (.list [.str "while", .list [.str "<", .int 1, .int 2],
          .list [.str "notify", .str "x"], .int 20000]) env0 st0 =
      (.error
        (.valueError "最大反復数が制限を超えています: 20000 > 10000"),
        env0, { path := [], effects := [] }) := by
  have h := claim4_amended O0 2 (.list [.str "<", .int 1, .int 2])
    (.list [.str "notify", .str "x"]) env0 st0
  refine ⟨?_, rfl, ?_, ?_⟩
  · have h5 := h.2.1 5 (by omega) (by omega)
    rw [h5]
    rfl
  · have h0 := h.2.2.2.1 0 (by omega)
    rw [h0]
    rfl
  · have hb := h.2.2.2.2.1 20000 (by omega)
    rw [hb]
    rfl

/-- Plain substring test (used to state what a gate message does not
mention). -/
def containsSub (needle hay : String) : Bool :=
  searchBy (fun cs => (stripPre needle.toList cs).isSome) hay.toList

/-- The child-validation loop answers `(true, "")` when every child
passes. -/
theorem validateList_all_true (f : SExpr → Bool × String)
    (args : List SExpr) (h : ∀ a ∈ args, f a = (true, "")) :
    validateList f args = (true, "") := by
  induction args with
  | nil => rfl
  | cons a rest ih =>
    have ha := h a (by simp)
    simp only [validateList, ha]
    exact ih (fun a1 h1 => h a1 (by simp [h1]))

/-- The child-validation loop stops at the first failing child: its
single message is returned and later children are never examined. -/
theorem validateList_append_err (f : SExpr → Bool × String)
    (pre : List SExpr) (e : SExpr) (post : List SExpr) (m : String)
    (hpre : ∀ p ∈ pre, f p = (true, "")) (he : f e = (false, m)) :
    validateList f (pre ++ e :: post) = (false, m) := by
  induction pre with
  | nil => simp [validateList, he]
  | cons a rest ih =>
    have ha := hpre a (by simp)
    simp only [List.cons_append, validateList, ha]
    exact ih (fun p h1 => hpre p (by simp [h1]))

/-- `seq` form dispatch of the validator: the whitelist, `calc` and
`let` special cases do not apply, leaving the plain child loop. -/
theorem validate_recursive_seq (is_admin : Bool) (fuel : Nat)
    (args : List SExpr) :
    validate_recursive is_admin (fuel + 1) (.list (.str "seq" :: args)) =
      validateList (validate_recursive is_admin fuel) args := rfl

/-- C7 counterexample: on an AST with two violations (`shell` needs
admin, `badtool` is not whitelisted), the gate returns a single string
naming only the first violation; the message does not mention the
second violating tool, although that tool alone is also rejected. -/
theorem claim7_counterexample :
    validate_s_expression
        (.list [.str "seq", .list [.str "shell", .int 1],
          .list [.str "badtool", .int 2]]) false 100 =
      (false, "ツール \x27shell\x27 は許可されていません")
    ∧ validate_s_expression (.list [.str "badtool", .int 2]) false 100 =
      (false, "ツール \x27badtool\x27 は許可されていません")
    ∧ containsSub "badtool"
        (validate_s_expression
          (.list [.str "seq", .list [.str "shell", .int 1],
            .list [.str "badtool", .int 2]]) false 100).2 = false :=
  ⟨rfl, rfl, rfl⟩

/-- C7 amended: the gate returns pass/fail plus a single human-readable
reason string (its result type holds one message, not a list), and it
short-circuits: under a `seq` whose earlier children pass, the result
is exactly the failing child's message, independent of the children
after it; when every child passes the gate answers `(true, "")`. -/
theorem claim7_amended (is_admin : Bool) (fuel : Nat) :
    (∀ args, (∀ a ∈ args, validate_recursive is_admin fuel a = (true, "")) →
      validate_s_expression (.list (.str "seq" :: args)) is_admin (fuel + 1) =
        (true, ""))
    ∧ (∀ pre e post m,
      (∀ p ∈ pre, validate_recursive is_admin fuel p = (true, "")) →
      validate_recursive is_admin fuel e = (false, m) →
      validate_s_expression (.list (.str "seq" :: (pre ++ e :: post)))
        is_admin (fuel + 1) = (false, m)) := by
  constructor
  · intro args h
    show validate_recursive is_admin (fuel + 1) (.list (.str "seq" :: args)) =
      (true, "")
    rw [validate_recursive_seq]
    exact validateList_all_true _ _ h
  · intro pre e post m hpre he
    show validate_recursive is_admin (fuel + 1)
      (.list (.str "seq" :: (pre ++ e :: post))) = (false, m)
    rw [validate_recursive_seq]
    exact validateList_append_err _ _ _ _ _ hpre he

/-- C7 witness: `(seq 1 (badtool) w)` is rejected with exactly the
`badtool` message, whatever follows that child. -/
theorem claim7_amended_witness :
    validate_s_expression
        (.list [.str "seq", .int 1, .list [.str "badtool"], .str "w"])
        false 11 =
      (false, "ツール \x27badtool\x27 は許可されていません") := by
  have h := (claim7_amended false 10).2 [.int 1] (.list [.str "badtool"])
    [.str "w"] "ツール \x27badtool\x27 は許可されていません"
    (by intro p hp; simp at hp; subst hp; rfl) rfl
  simpa using h

/-- C1 counterexample: the string atom `"eval(1+1)"` matches the
forbidden pattern `eval\s*\(`, yet the AST `(notify "eval(1+1)")`
passes the security gate, and the async evaluator then evaluates it
fully, producing a notify effect — the AST is neither rejected nor
kept from evaluation. -/
theorem claim1_counterexample :
    matchesForbidden "eval(1+1)" = true
    ∧ validate_s_expression (.list [.str "notify", .str "eval(1+1)"])
        false 3 = (true, "")
    ∧ asyncEvaluateWithContext OA0 declOrder 3
        (.list [.str "notify", .str "eval(1+1)"]) env0 false =
      (.ok (.vStr "eval(1+1)"), [.notifyE (.vStr "eval(1+1)")]) :=
  ⟨rfl, rfl, rfl⟩

/-- C1 amended: a form whose operator is a non-control name failing
the whitelist (such as `__import__` for a non-admin caller) is
rejected by the gate whatever its arguments, and a failed gate makes
the async evaluator raise `SecurityError` with an empty effect log —
nothing is evaluated.  But the pattern check on string atoms applies
only to the first argument of a `calc` form: a bare string atom always
passes the gate, whatever forbidden pattern it matches, and only in
`calc` position is a forbidden string rejected. -/
theorem claim1_amended (is_admin : Bool) (fuel : Nat) :
    (∀ (op : String) (args : List SExpr),
      control_structures.contains op = false →
      is_allowed op is_admin = false →
      validate_s_expression (.list (.str op :: args)) is_admin (fuel + 1) =
        (false, "ツール \x27" ++ op ++ "\x27 は許可されていません"))
    ∧ (∀ (O : AsyncOracles) (pol : Nat → List Nat) (expr : SExpr)
        (env : Env) (m : String),
      validate_s_expression expr is_admin fuel = (false, m) →
      asyncEvaluateWithContext O pol fuel expr env is_admin =
        (.error (.securityError ("セキュリティ検証失敗: " ++ m)), []))
    ∧ (∀ s : String,
      validate_s_expression (.str s) is_admin (fuel + 1) = (true, ""))
    ∧ (∀ (cs : String) (rest : List SExpr) (p : String),
      trimChars cs.toList ≠ [] →
      firstForbiddenL (trimChars cs.toList) = some p →
      validate_s_expression (.list (.str "calc" :: .str cs :: rest))
        is_admin (fuel + 1) =
        (false, "calc式が無効: " ++ ("危険なパターンが検出されました: " ++ p))) := by
  refine ⟨?_, ?_, ?_, ?_⟩
  · intro op args h1 h2
    have h1m : ¬ (op ∈ control_structures) := by simpa using h1
    show validate_recursive is_admin (fuel + 1) (.list (.str op :: args)) = _
    unfold validate_recursive
    simp [h1m, h2]
  · intro O pol expr env m h
    simp only [asyncEvaluateWithContext, h]
  · intro s
    rfl
  · intro cs rest p htrim hp
    have htrim' : ¬ (trimChars cs.data = []) := by
      simpa [String.toList] using htrim
    have hp' : firstForbiddenL (trimChars cs.data) = some p := by
      simpa [String.toList] using hp
    show validate_recursive is_admin (fuel + 1)
      (.list (.str "calc" :: .str cs :: rest)) = _
    unfold validate_recursive
    simp [validate_expression, htrim', hp', is_allowed, allowed_tools,
      control_structures, admin_only_tools]

/-- C1 witness: `(__import__ "os")` is rejected by the gate for a
non-admin caller and the async evaluator raises `SecurityError` with
zero effects; the bare forbidden atom `"eval("` passes; the same
pattern in `calc` position is rejected. -/
theorem claim1_amended_witness :
    validate_s_expression (.list [.str "__import__", .str "os"]) false 3 =
      (false, "ツール \x27__import__\x27 は許可されていません")
    ∧ asyncEvaluateWithContext OA0 declOrder 3
        (.list [.str "__import__", .str "os"]) env0 false =
      (.error (.securityError
        "セキュリティ検証失敗: ツール \x27__import__\x27 は許可されていません"), [])
    ∧ validate_s_expression (.str "eval(") false 3 = (true, "")
    ∧ validate_s_expression (.list [.str "calc", .str "eval(1+1)"]) false 3 =
      (false, "calc式が無効: 危険なパターンが検出されました: eval\\s*\\(") := by
  have h2 := claim1_amended false 2
  have h3 := claim1_amended false 3
  refine ⟨?_, ?_, h2.2.2.1 "eval(", ?_⟩
  · have := h2.1 "__import__" [.str "os"] rfl rfl
    simpa using this
  · have := h3.2.1 OA0 declOrder (.list [.str "__import__", .str "os"])
      env0 "ツール \x27__import__\x27 は許可されていません" (by
        have := h2.1 "__import__" [.str "os"] rfl rfl
        simpa using this)
    simpa using this
  · have := h2.2.2.2 "eval(1+1)" [] "eval\\s*\\(" (by decide) rfl
    simpa using this

/-! ### C8: arithmetic -/

/-- Numeric atom (int or float literal) of the surface language. -/
def numAtom : Int ⊕ Rat → SExpr
  | .inl n => .int n
  | .inr q => .float q

/-- The runtime value of a numeric atom. -/
def valOfNum : Int ⊕ Rat → Val
  | .inl n => .vInt n
  | .inr q => .vFloat q

/-- Python addition on numbers: int+int stays int, anything involving
a float is a float. -/
def addSt : (Int ⊕ Rat) → (Int ⊕ Rat) → (Int ⊕ Rat)
  | .inl m, .inl n => .inl (m + n)
  | .inl m, .inr q => .inr (m + q)
  | .inr q, .inl n => .inr (q + n)
  | .inr q, .inr r => .inr (q + r)

/-- `pyAdd` agrees with `addSt` on numbers. -/
theorem pyAdd_num (a b : Int ⊕ Rat) :
    pyAdd (valOfNum a) (valOfNum b) = .ok (valOfNum (addSt a b)) := by
  cases a with
  | inl m =>
    cases b with
    | inl n =>
      simp only [valOfNum, pyAdd, numOfVal, addSt]
      norm_num
      rw [show ((m : Rat) + (n : Rat)) = ((m + n : Int) : Rat) by push_cast; ring]
      exact Rat.num_intCast _
    | inr q => simp [valOfNum, pyAdd, numOfVal, addSt]
  | inr q =>
    cases b with
    | inl n => simp [valOfNum, pyAdd, numOfVal, addSt]
    | inr r => simp [valOfNum, pyAdd, numOfVal, addSt]

/-- Float-ness of the running sum is the disjunction of the
float-nesses folded so far. -/
theorem addSt_isRight (a b : Int ⊕ Rat) :
    (addSt a b).isRight = (a.isRight || b.isRight) := by
  cases a <;> cases b <;> simp [addSt]

/-- Folding preserves the float-promotion law. -/
theorem foldl_addSt_isRight (xs : List (Int ⊕ Rat)) (acc : Int ⊕ Rat) :
    (xs.foldl addSt acc).isRight = (acc.isRight || xs.any Sum.isRight) := by
  induction xs generalizing acc with
  | nil => simp
  | cons x rest ih =>
    simp [List.foldl_cons, ih, addSt_isRight, Bool.or_assoc]

/-- A numeric atom evaluates to its value, leaving environment and
logger state unchanged (the push/pop bracket is balanced). -/
theorem subEval_numAtom (O : Oracles) (fuel : Nat) (i : Nat)
    (x : Int ⊕ Rat) (env : Env) (st : SyncState) :
    subEval (evalB O (fuel + 1)) i (numAtom x) env st =
      (.ok (valOfNum x), env, st) := by
  cases x <;> rfl

/-- The `+` fold over numeric atoms computes the left-to-right
`addSt` fold. -/
theorem evalAddFold_num (O : Oracles) (fuel : Nat)
    (xs : List (Int ⊕ Rat)) (i : Nat) (acc : Int ⊕ Rat) (env : Env)
    (st : SyncState) :
    evalAddFold (evalB O (fuel + 1)) (xs.map numAtom) i (valOfNum acc)
        env st =
      (.ok (valOfNum (xs.foldl addSt acc)), env, st) := by
  induction xs generalizing i acc with
  | nil => simp [evalAddFold]
  | cons x rest ih =>
    simp only [List.map_cons, evalAddFold, subEval_numAtom, pyAdd_num]
    exact ih (i + 1) (addSt acc x)

/-- `+` arm of the synchronous dispatch (at least two operands). -/
theorem evalCore_plus (O : Oracles) (f : SExpr → Env → SyncState → Res)
    (a b : SExpr) (rest : List SExpr) (env : Env) (st : SyncState) :
    evalCore O f (.list (.str "+" :: a :: b :: rest)) env st =
      (match (match subEval f 1 a env (pushP 0 st) with
        | (.ok v0, env1, st1) => evalAddFold f (b :: rest) 2 v0 env1 st1
        | r1 => r1) with
      | (.ok v, env1, st1) => (.ok v, env1, popP st1)
      | rr => rr) := rfl

/-- C8 counterexample: `(+ "a" "b")` has string operands but raises no
`TypeError` — Python `+` concatenates the strings and the evaluator
returns `"ab"`. -/
theorem claim8_counterexample :
    evalB O0 3 (.list [.str "+", .str "a", .str "b"]) env0 st0 =
      (.ok (.vStr "ab"), env0, st0)
    ∧ ∀ e, (evalB O0 3 (.list [.str "+", .str "a", .str "b"]) env0 st0).1 ≠
      .error e := by
  refine ⟨rfl, ?_⟩
  intro e h
  rw [show (evalB O0 3 (.list [.str "+", .str "a", .str "b"]) env0 st0).1 =
    .ok (.vStr "ab") from rfl] at h
  exact Except.noConfusion h

/-- C8 amended: `+` requires at least two operands (`TypeError`
otherwise); on numeric operands it folds left-to-right and the result
is a float exactly when some operand is a float; a string operand
mixed with a numeric operand raises `TypeError` when the fold reaches
the pair — but all-string operands concatenate (Python `+`), they are
not an error. -/
theorem claim8_amended (O : Oracles) (fuel : Nat) (env : Env)
    (st : SyncState) :
    (evalB O (fuel + 1) (.list [.str "+"]) env st =
      (.error (.typeError "加算には少なくとも2つの引数が必要です"), env,
        { st with path := [] }))
    ∧ (∀ a, evalB O (fuel + 1) (.list [.str "+", a]) env st =
      (.error (.typeError "加算には少なくとも2つの引数が必要です"), env,
        { st with path := [] }))
    ∧ (∀ (s : String) (n : Int), env.lookupChain s = none →
      evalB O (fuel + 2) (.list [.str "+", .str s, .int n]) env st =
        (.error (.typeError "unsupported operand type(s) for +"), env,
          { st with path := [] }))
    ∧ (∀ (s : String) (n : Int), env.lookupChain s = none →
      evalB O (fuel + 2) (.list [.str "+", .int n, .str s]) env st =
        (.error (.typeError "unsupported operand type(s) for +"), env,
          { st with path := [] }))
    ∧ (∀ (x y : Int ⊕ Rat) (rest : List (Int ⊕ Rat)),
      evalB O (fuel + 2)
          (.list (.str "+" :: (x :: y :: rest).map numAtom)) env st =
        (.ok (valOfNum ((y :: rest).foldl addSt x)), env, st)
      ∧ ((y :: rest).foldl addSt x).isRight =
        (x :: y :: rest).any Sum.isRight) := by
  have hint : ∀ (n : Int) (i : Nat) (st2 : SyncState),
      subEval (evalB O (fuel + 1)) i (.int n) env st2 =
        (.ok (.vInt n), env, st2) := fun _ _ _ => rfl
  refine ⟨rfl, fun a => rfl, ?_, ?_, ?_⟩
  · intro s n h
    have hstep : ∀ st2 : SyncState, evalB O (fuel + 1) (.str s) env st2 =
        (.ok (.vStr s), env, st2) :=
      fun st2 => (claim10_unbound_string O OA0 declOrder fuel s env st2 h).1
    have hs : ∀ (i : Nat) (st2 : SyncState),
        subEval (evalB O (fuel + 1)) i (.str s) env st2 =
          (.ok (.vStr s), env, st2) := by
      intro i st2
      simp [subEval, hstep, popP, pushP]
    rw [evalB_succ, evalCore_plus, hs]
    simp only [evalAddFold, hint]
    rfl
  · intro s n h
    have hstep : ∀ st2 : SyncState, evalB O (fuel + 1) (.str s) env st2 =
        (.ok (.vStr s), env, st2) :=
      fun st2 => (claim10_unbound_string O OA0 declOrder fuel s env st2 h).1
    have hs : ∀ (i : Nat) (st2 : SyncState),
        subEval (evalB O (fuel + 1)) i (.str s) env st2 =
          (.ok (.vStr s), env, st2) := by
      intro i st2
      simp [subEval, hstep, popP, pushP]
    rw [evalB_succ, evalCore_plus, hint]
    simp only [evalAddFold, hs]
    rfl
  · intro x y rest
    refine ⟨?_, by simp [foldl_addSt_isRight, addSt_isRight, Bool.or_assoc]⟩
    rw [evalB_succ]
    rw [show ((x :: y :: rest).map numAtom) =
      (numAtom x :: numAtom y :: rest.map numAtom) from by simp]
    rw [evalCore_plus]
    simp only [subEval_numAtom]
    rw [← List.map_cons]
    rw [evalAddFold_num O fuel (y :: rest) 2 x env (pushP 0 st)]
    rfl

/-- C8 witness: `(+ 1 2 3)` folds to the integer 6, the float-ness
flag of `(+ 1 2.5)` is true, `(+ "a" 1)` is a `TypeError`, and `(+)`
is an arity error. -/
theorem claim8_amended_witness :
    evalB O0 3 (.list [.str "+", .int 1, .int 2, .int 3]) env0 st0 =
      (.ok (.vInt 6), env0, st0)
    ∧ ((([.inr (Rat.mk' 5 2)] : List (Int ⊕ Rat)).foldl addSt
        (.inl 1)).isRight = true)
    ∧ evalB O0 3 (.list [.str "+", .str "a", .int 1]) env0 st0 =
      (.error (.typeError "unsupported operand type(s) for +"), env0,
        { path := [], effects := [] })
    ∧ evalB O0 3 (.list [.str "+"]) env0 st0 =
      (.error (.typeError "加算には少なくとも2つの引数が必要です"), env0,
        { path := [], effects := [] }) := by
  have h := claim8_amended O0 1 env0 st0
  refine ⟨?_, ?_, ?_, ?_⟩
  · have := (h.2.2.2.2 (.inl 1) (.inl 2) [.inl 3]).1
    simpa using this
  · have := (h.2.2.2.2 (.inl 1) (.inr (Rat.mk' 5 2)) []).2
    simpa using this
  · have := h.2.2.1 "a" 1 rfl
    simpa using this
  · have := (claim8_amended O0 2 env0 st0).1
    simpa using this

/-! ### C5: `let` scoping -/

/-- `let` arm of the synchronous dispatch (binding list is a list). -/
theorem evalCore_let (O : Oracles) (f : SExpr → Env → SyncState → Res)
    (bs : List SExpr) (body : SExpr) (rest2 : List SExpr) (env : Env)
    (st : SyncState) :
    evalCore O f (.list (.str "let" :: .list bs :: body :: rest2)) env st =
      (match (match evalLetBindings f bs 1 [] env (pushP 0 st) with
        | (.ok childBs, env1, st1) =>
          (match subEval f (bs.length + 1) body (.child childBs env1) st1 with
           | (r2, env2, st2) => ((r2, env2.parentOrSelf, st2) : Res))
        | (.error e1, env1, st1) => ((.error e1, env1, st1) : Res)) with
      | (.ok v, env1, st1) => (.ok v, env1, popP st1)
      | rr => rr) := rfl

/-- `let` arm of the asynchronous dispatch (binding list is a list). -/
theorem evalACore_let (O : AsyncOracles) (pol : Nat → List Nat)
    (f : SExpr → Env → ARes) (bs : List SExpr) (body : SExpr)
    (rest2 : List SExpr) (env : Env) :
    evalACore O pol f (.list (.str "let" :: .list bs :: body :: rest2)) env =
      (match checkBindingsA bs with
      | .error e1 => ((.error e1 : Except EvalErr Val), ([] : List Effect))
      | .ok pairs =>
        match evalBranchesA f (pairs.map (fun p => p.2)) env with
        | (rs, effs) =>
          match gatherA rs (pol pairs.length) with
          | .error e1 => (.error e1, effs)
          | .ok vs =>
            match f body (.child
                ((List.zip (pairs.map (fun p => p.1)) vs).foldl
                  (fun acc nv => assocSet acc nv.1 nv.2) []) env) with
            | (r2, effs2) => (r2, effs ++ effs2)) := rfl

/-- C5: `let` binding expressions are evaluated against the outer
environment — with bindings `((x ex) (y x))`, the second binding
resolves `x` in the outer scope (value `v0`), never to the first
binding's value `v1`; all bindings are then defined into one fresh
child in which the body runs (the body reads `y` as `v0`), and the
child is discarded afterwards, the outer environment surviving.  This
holds in the synchronous evaluator (part 1) and the asynchronous one
(part 3); part 2 checks the spec's concrete programs: the inner `let`
shadows (`2`) and the outer binding is unchanged afterwards (`1`). -/
theorem claim5_let_scoping (O : Oracles) (OA : AsyncOracles)
    (pol : Nat → List Nat) (fuel : Nat) (x y : String) (ex : SExpr)
    (env env1 : Env) (st st1 : SyncState) (v0 v1 : Val) :
    (x ≠ y →
      evalB O (fuel + 1) ex env (pushP 1 (pushP 0 st)) = (.ok v1, env1, st1) →
      env1.lookupChain x = some v0 →
      evalB O (fuel + 2)
          (.list [.str "let",
            .list [.list [.str x, ex], .list [.str y, .str x]], .str y])
          env st =
        (.ok v0, env1, popP (popP st1)))
    ∧ (evalB O0 20
        (.list [.str "let", .list [.list [.str "x", .int 1]],
          .list [.str "let", .list [.list [.str "x", .int 2]], .str "x"]])
        env0 st0 = (.ok (.vInt 2), env0, st0)
      ∧ evalB O0 20
        (.list [.str "let", .list [.list [.str "x", .int 1]],
          .list [.str "seq",
            .list [.str "let", .list [.list [.str "x", .int 2]], .str "x"],
            .str "x"]])
        env0 st0 = (.ok (.vInt 1), env0, st0))
    ∧ (∀ effs1, x ≠ y →
      evalA OA pol (fuel + 1) ex env = (.ok v1, effs1) →
      env.lookupChain x = some v0 →
      evalA OA pol (fuel + 2)
          (.list [.str "let",
            .list [.list [.str x, ex], .list [.str y, .str x]], .str y])
          env =
        (.ok v0, effs1)) := by
  refine ⟨?_, ⟨rfl, rfl⟩, ?_⟩
  · intro hxy h1 hx
    have hxyb : (x == y) = false := by simp [hxy]
    have hsub1 : subEval (evalB O (fuel + 1)) 1 ex env (pushP 0 st) =
        (.ok v1, env1, popP st1) := by
      simp [subEval, h1]
    have hxeval : evalB O (fuel + 1) (.str x) env1 (pushP 2 (popP st1)) =
        (.ok v0, env1, pushP 2 (popP st1)) := by
      rw [evalB_succ, evalCore_str, hx]
    have hsub2 : subEval (evalB O (fuel + 1)) 2 (.str x) env1 (popP st1) =
        (.ok v0, env1, popP st1) := by
      simp only [pushP, popP] at hxeval
      simp [subEval, hxeval, popP, pushP]
    have hb : evalLetBindings (evalB O (fuel + 1))
        [.list [.str x, ex], .list [.str y, .str x]] 1 [] env (pushP 0 st) =
        (.ok [(x, v1), (y, v0)], env1, popP st1) := by
      simp only [evalLetBindings, hsub1, hsub2]
      simp [assocSet, containsVar, hxyb]
    have hyeval : evalB O (fuel + 1) (.str y)
        (.child [(x, v1), (y, v0)] env1) (pushP 3 (popP st1)) =
        (.ok v0, .child [(x, v1), (y, v0)] env1, pushP 3 (popP st1)) := by
      rw [evalB_succ, evalCore_str]
      simp [Env.lookupChain, lookupAssoc, hxyb]
    have hbody : subEval (evalB O (fuel + 1)) 3 (.str y)
        (.child [(x, v1), (y, v0)] env1) (popP st1) =
        (.ok v0, .child [(x, v1), (y, v0)] env1, popP st1) := by
      simp only [pushP, popP] at hyeval
      simp [subEval, hyeval, popP, pushP]
    rw [evalB_succ, evalCore_let, hb]
    simp only [List.length_cons, List.length_nil]
    rw [show (0 + 1 + 1 + 1 : Nat) = 3 from rfl]
    rw [hbody]
    simp [Env.parentOrSelf, popP]
  · intro effs1 hxy h1a hx
    have hxyb : (x == y) = false := by simp [hxy]
    have hxeval : evalA OA pol (fuel + 1) (.str x) env = (.ok v0, []) := by
      rw [evalA_succ, evalACore_str, hx]
    have hyeval : evalA OA pol (fuel + 1) (.str y)
        (.child [(x, v1), (y, v0)] env) = (.ok v0, []) := by
      rw [evalA_succ, evalACore_str]
      simp [Env.lookupChain, lookupAssoc, hxyb]
    rw [evalA_succ, evalACore_let]
    rw [show checkBindingsA [.list [.str x, ex], .list [.str y, .str x]] =
      .ok [(x, ex), (y, .str x)] from rfl]
    simp only [List.map_cons, List.map_nil]
    rw [show evalBranchesA (evalA OA pol (fuel + 1)) [ex, .str x] env =
      ([(evalA OA pol (fuel + 1) ex env).1,
        (evalA OA pol (fuel + 1) (.str x) env).1],
        (evalA OA pol (fuel + 1) ex env).2 ++
          ((evalA OA pol (fuel + 1) (.str x) env).2 ++ [])) from rfl]
    rw [h1a, hxeval]
    simp only [gatherA, firstErrOf, okVals, List.filterMap_cons,
      Except.toOption]
    simp only [List.zip, List.zipWith, List.foldl]
    rw [show assocSet (assocSet [] x v1) y v0 = [(x, v1), (y, v0)] from by
      simp [assocSet, containsVar, hxyb]]
    rw [hyeval]
    simp

/-- C5 witness: with outer `x = 10`, the program
`(let ((x 1) (z x)) z)` binds `z` to the outer `x` (10), not to 1. -/
theorem claim5_let_scoping_witness :
    evalB O0 3
        (.list [.str "let",
          .list [.list [.str "x", .int 1], .list [.str "z", .str "x"]],
          .str "z"])
        (.root [("x", .vInt 10)]) st0 =
      (.ok (.vInt 10), .root [("x", .vInt 10)], st0)
    ∧ evalA OA0 declOrder 3
        (.list [.str "let",
          .list [.list [.str "x", .int 1], .list [.str "z", .str "x"]],
          .str "z"])
        (.root [("x", .vInt 10)]) =
      (.ok (.vInt 10), []) := by
  have h := claim5_let_scoping O0 OA0 declOrder 1 "x" "z" (.int 1)
    (.root [("x", .vInt 10)]) (.root [("x", .vInt 10)])
    st0 (pushP 1 (pushP 0 st0)) (.vInt 10) (.vInt 1)
  constructor
  · have := h.1 (by decide) rfl rfl
    simpa [popP, pushP, st0] using this
  · exact h.2.2 [] (by decide) rfl rfl

/-! ### C9: path-stack balance

`noCatch` marks the expressions whose evaluation never swallows an
exception internally: every operator is a known built-in arm other
than `handle` (whose except-branch runs after the path stack has been
cleared by the failing sub-evaluation) and other than the unknown-tool
fallthrough (whose argument loop catches sub-evaluation errors). -/

/-- Operators with a dedicated arm in `_evaluate_basic`, minus
`handle`. -/
def knownOps : List String :=
  ["plan", "seq", "par", "if", "set", "while", "+", "<", "let",
   "notify", "search", "calc", "db-query", "math", "step_math", "ask_user"]

mutual

/-- No sub-evaluation error of this expression is caught internally. -/
def noCatch : SExpr → Bool
  | .str _ => true
  | .int _ => true
  | .float _ => true
  | .list [] => true
  | .list (.str op :: args) =>
    if op = "handle" then false
    else if op = "let" then
      (match args with
       | bl :: rest =>
         (match bl with
          | .list bs => noCatchBindings bs
          | _ => true) && noCatchList rest
       | [] => true)
    else knownOps.contains op && noCatchList args
  | .list (_ :: _) => false

/-- `noCatch` for every element. -/
def noCatchList : List SExpr → Bool
  | [] => true
  | e :: rest => noCatch e && noCatchList rest

/-- `noCatch` for every binding value of a `let` binding list. -/
def noCatchBindings : List SExpr → Bool
  | [] => true
  | .list [_, e] :: rest => noCatch e && noCatchBindings rest
  | _ :: rest => noCatchBindings rest

end

/-- The `let`-specific side condition of `noCatch`, split out. -/
def noCatchLet (args : List SExpr) : Bool :=
  match args with
  | bl :: rest =>
    ((match bl with
      | SExpr.list bs => noCatchBindings bs
      | _ => true) && noCatchList rest)
  | [] => true

/-- `f` restores the path stack over every successful evaluation of
`e`. -/
def PathPres (f : SExpr → Env → SyncState → Res) (e : SExpr) : Prop :=
  ∀ env st v env1 st1, f e env st = (.ok v, env1, st1) → st1.path = st.path

/-- A balanced `push/eval/pop` bracket restores the path stack. -/
theorem subEval_pres (f : SExpr → Env → SyncState → Res) (i : Nat)
    (e : SExpr) (he : PathPres f e) :
    ∀ env st v env1 st1, subEval f i e env st = (.ok v, env1, st1) →
      st1.path = st.path := by
  intro env st v env1 st1 h
  unfold subEval at h
  rcases h2 : f e env (pushP i st) with ⟨r, env2, st2⟩
  rw [h2] at h
  cases r with
  | error e1 => exact absurd h (by simp)
  | ok w =>
    simp only [Prod.mk.injEq] at h
    obtain ⟨h3, h4, h5⟩ := h
    rw [← h5]
    have hp := he env (pushP i st) w env2 st2 h2
    simp [popP, hp, pushP]

/-- The `seq` loop restores the path stack on success. -/
theorem evalSeq_pres (f : SExpr → Env → SyncState → Res)
    (hf : ∀ e, noCatch e = true → PathPres f e) :
    ∀ args, noCatchList args = true →
      ∀ i acc env st v env1 st1,
        evalSeq f args i acc env st = (.ok v, env1, st1) →
        st1.path = st.path := by
  intro args
  induction args with
  | nil =>
    intro _ i acc env st v env1 st1 h
    simp only [evalSeq, Prod.mk.injEq] at h
    rw [← h.2.2]
  | cons a rest ih =>
    intro hnc i acc env st v env1 st1 h
    simp only [noCatchList, Bool.and_eq_true] at hnc
    simp only [evalSeq] at h
    rcases h2 : subEval f i a env st with ⟨r, env2, st2⟩
    rw [h2] at h
    cases r with
    | error e1 => exact absurd h (by simp)
    | ok w =>
      simp only at h
      have hp1 := subEval_pres f i a (hf a hnc.1) env st w env2 st2 h2
      have hp2 := ih hnc.2 (i + 1) w env2 st2 v env1 st1 h
      rw [hp2, hp1]

/-- The `par` branch loop restores the path stack when every branch
succeeds. -/
theorem evalPar_pres (f : SExpr → Env → SyncState → Res)
    (hf : ∀ e, noCatch e = true → PathPres f e) :
    ∀ args, noCatchList args = true →
      ∀ i env st rs env1 st1,
        evalPar f args i env st = (rs, env1, st1) →
        firstErrOf rs = none →
        st1.path = st.path := by
  intro args
  induction args with
  | nil =>
    intro _ i env st rs env1 st1 h _
    simp only [evalPar, Prod.mk.injEq] at h
    rw [← h.2.2]
  | cons a rest ih =>
    intro hnc i env st rs env1 st1 h hok
    simp only [noCatchList, Bool.and_eq_true] at hnc
    simp only [evalPar] at h
    rcases h2 : subEval f i a env st with ⟨r, env2, st2⟩
    rw [h2] at h
    rcases h3 : evalPar f rest (i + 1) env2 st2 with ⟨rs2, env3, st3⟩
    rw [h3] at h
    simp only [Prod.mk.injEq] at h
    obtain ⟨hr, h4, h5⟩ := h
    rw [← hr] at hok
    cases r with
    | error e1 => simp [firstErrOf] at hok
    | ok w =>
      have hok2 : firstErrOf rs2 = none := by simpa [firstErrOf] using hok
      have hp1 := subEval_pres f i a (hf a hnc.1) env st w env2 st2 h2
      have hp2 := ih hnc.2 (i + 1) env2 st2 rs2 env3 st3 h3 hok2
      rw [← h5, hp2, hp1]

/-- The `+` fold restores the path stack on success. -/
theorem evalAddFold_pres (f : SExpr → Env → SyncState → Res)
    (hf : ∀ e, noCatch e = true → PathPres f e) :
    ∀ args, noCatchList args = true →
      ∀ i acc env st v env1 st1,
        evalAddFold f args i acc env st = (.ok v, env1, st1) →
        st1.path = st.path := by
  intro args
  induction args with
  | nil =>
    intro _ i acc env st v env1 st1 h
    simp only [evalAddFold, Prod.mk.injEq] at h
    rw [← h.2.2]
  | cons a rest ih =>
    intro hnc i acc env st v env1 st1 h
    simp only [noCatchList, Bool.and_eq_true] at hnc
    simp only [evalAddFold] at h
    rcases h2 : subEval f i a env st with ⟨r, env2, st2⟩
    rw [h2] at h
    cases r with
    | error e1 => exact absurd h (by simp)
    | ok w =>
      simp only at h
      have hp1 := subEval_pres f i a (hf a hnc.1) env st w env2 st2 h2
      cases h4 : pyAdd acc w with
      | error e1 =>
        rw [h4] at h
        exact absurd h (by simp)
      | ok acc1 =>
        rw [h4] at h
        have hp2 := ih hnc.2 (i + 1) acc1 env2 st2 v env1 st1 h
        rw [hp2, hp1]

/-- The `let` binding loop restores the path stack on success. -/
theorem evalLetBindings_pres (f : SExpr → Env → SyncState → Res)
    (hf : ∀ e, noCatch e = true → PathPres f e) :
    ∀ bs, noCatchBindings bs = true →
      ∀ i acc env st out env1 st1,
        evalLetBindings f bs i acc env st = (.ok out, env1, st1) →
        st1.path = st.path := by
  intro bs
  induction bs with
  | nil =>
    intro _ i acc env st out env1 st1 h
    simp only [evalLetBindings, Prod.mk.injEq] at h
    rw [← h.2.2]
  | cons b rest ih =>
    intro hnc i acc env st out env1 st1 h
    match b with
    | .list [.str var, valExpr] =>
      simp only [noCatchBindings, Bool.and_eq_true] at hnc
      simp only [evalLetBindings] at h
      rcases h2 : subEval f i valExpr env st with ⟨r, env2, st2⟩
      rw [h2] at h
      cases r with
      | error e1 => exact absurd h (by simp)
      | ok w =>
        simp only at h
        have hp1 := subEval_pres f i valExpr (hf valExpr hnc.1) env st w
          env2 st2 h2
        have hp2 := ih hnc.2 (i + 1) (assocSet acc var w) env2 st2 out
          env1 st1 h
        rw [hp2, hp1]
    | .list [.int k, valExpr] => simp [evalLetBindings] at h
    | .list [.float q, valExpr] => simp [evalLetBindings] at h
    | .list [.list l, valExpr] => simp [evalLetBindings] at h
    | .list [] => simp [evalLetBindings] at h
    | .list [z] => simp [evalLetBindings] at h
    | .list (z1 :: z2 :: z3 :: zr) => simp [evalLetBindings] at h
    | .str z => simp [evalLetBindings] at h
    | .int k => simp [evalLetBindings] at h
    | .float q => simp [evalLetBindings] at h

/-- The `while` loop restores the path stack on success. -/
theorem runWhileAux_pres (f : SExpr → Env → SyncState → Res) (c b : SExpr)
    (hc : PathPres f c) (hb : PathPres f b) :
    ∀ n count acc env st v k env1 st1,
      runWhileAux f c b n count acc env st = ((.ok v, k), env1, st1) →
      st1.path = st.path := by
  intro n
  induction n with
  | zero =>
    intro count acc env st v k env1 st1 h
    simp only [runWhileAux, Prod.mk.injEq] at h
    rw [← h.2.2]
  | succ r ih =>
    intro count acc env st v k env1 st1 h
    simp only [runWhileAux] at h
    rcases h2 : subEval f 1 c env st with ⟨r1, env2, st2⟩
    rw [h2] at h
    cases r1 with
    | error e1 => exact absurd h (by simp)
    | ok cv =>
      simp only at h
      have hp1 := subEval_pres f 1 c hc env st cv env2 st2 h2
      cases ht : truthy cv with
      | true =>
        simp only [ht, if_true] at h
        rcases h3 : subEval f 2 b env2 st2 with ⟨r2, env3, st3⟩
        rw [h3] at h
        cases r2 with
        | error e1 => exact absurd h (by simp)
        | ok bv =>
          simp only at h
          have hp2 := subEval_pres f 2 b hb env2 st2 bv env3 st3 h3
          have hp3 := ih (count + 1) bv env3 st3 v k env1 st1 h
          rw [hp3, hp2, hp1]
      | false =>
        simp only [ht, Bool.false_eq_true, if_false, Prod.mk.injEq] at h
        rw [← h.2.2, hp1]

/-- `whileCont` restores the path stack on success. -/
theorem whileCont_pres (f : SExpr → Env → SyncState → Res) (c b : SExpr)
    (hc : PathPres f c) (hb : PathPres f b) (mv : Val) :
    ∀ env st v env1 st1, whileCont f c b mv env st = (.ok v, env1, st1) →
      st1.path = st.path := by
  intro env st v env1 st1 h
  unfold whileCont at h
  cases hn : numOfVal mv with
  | none =>
    rw [hn] at h
    exact absurd h (by simp)
  | some p =>
    rw [hn] at h
    rcases p with ⟨isF, q⟩
    simp only at h
    by_cases hq : q ≤ 0
    · rw [if_pos hq] at h
      exact absurd h (by simp)
    · rw [if_neg hq] at h
      by_cases hbig : q.floor.toNat > 10000
      · rw [if_pos hbig] at h
        exact absurd h (by simp)
      · rw [if_neg hbig] at h
        rcases h2 : runWhileAux f c b q.floor.toNat 0 .vNone env st
          with ⟨⟨r1, k⟩, env2, st2⟩
        rw [h2] at h
        cases r1 with
        | error e1 => exact absurd h (by simp)
        | ok w =>
          simp only [Prod.mk.injEq] at h
          rw [← h.2.2]
          exact runWhileAux_pres f c b hc hb _ 0 .vNone env st w k env2 st2 h2

/-- The success-side `pop_path` turns an arm that restores the pushed
path into a step that restores the original path. -/
theorem finishArm_pres (arm : Res) (st : SyncState)
    (ha : ∀ v env2 st2, arm = (.ok v, env2, st2) →
      st2.path = (pushP 0 st).path) :
    ∀ v env1 st1, finishArm arm = (.ok v, env1, st1) → st1.path = st.path := by
  intro v env1 st1 h
  rcases arm with ⟨r, env2, st2⟩
  cases r with
  | error e1 => exact absurd h (by simp [finishArm])
  | ok w =>
    simp only [finishArm, Prod.mk.injEq] at h
    have hp := ha w env2 st2 rfl
    rw [← h.2.2]
    simp [popP, hp, pushP]

/-- The `plan` arm restores the path on success. -/
theorem armPlan_pres (f : SExpr → Env → SyncState → Res)
    (hf : ∀ e, noCatch e = true → PathPres f e) (args : List SExpr)
    (hnc : noCatchList args = true) :
    ∀ env st0 v env2 st2, armPlan f args env st0 = (.ok v, env2, st2) →
      st2.path = st0.path := by
  intro env st0 v env2 st2 h
  cases args with
  | nil => exact absurd h (by simp [armPlan])
  | cons a rest =>
    simp only [noCatchList, Bool.and_eq_true] at hnc
    exact hf a hnc.1 env st0 v env2 st2 h

/-- The `seq` arm restores the path on success. -/
theorem armSeq_pres (f : SExpr → Env → SyncState → Res)
    (hf : ∀ e, noCatch e = true → PathPres f e) (args : List SExpr)
    (hnc : noCatchList args = true) :
    ∀ env st0 v env2 st2, armSeq f args env st0 = (.ok v, env2, st2) →
      st2.path = st0.path := by
  intro env st0 v env2 st2 h
  exact evalSeq_pres f hf args hnc 1 .vNone env st0 v env2 st2 h

/-- The `par` arm restores the path on success. -/
theorem armPar_pres (f : SExpr → Env → SyncState → Res)
    (hf : ∀ e, noCatch e = true → PathPres f e) (args : List SExpr)
    (hnc : noCatchList args = true) :
    ∀ env st0 v env2 st2, armPar f args env st0 = (.ok v, env2, st2) →
      st2.path = st0.path := by
  intro env st0 v env2 st2 h
  unfold armPar at h
  rcases h2 : evalPar f args 1 env st0 with ⟨rs, env1, st1⟩
  rw [h2] at h
  simp only at h
  cases hfe : firstErrOf rs with
  | some e1 =>
    rw [hfe] at h
    exact absurd h (by simp)
  | none =>
    rw [hfe] at h
    simp only [Prod.mk.injEq] at h
    rw [← h.2.2]
    exact evalPar_pres f hf args hnc 1 env st0 rs env1 st1 h2 hfe

/-- The `if` arm restores the path on success. -/
theorem armIf_pres (f : SExpr → Env → SyncState → Res)
    (hf : ∀ e, noCatch e = true → PathPres f e) (args : List SExpr)
    (hnc : noCatchList args = true) :
    ∀ env st0 v env2 st2, armIf f args env st0 = (.ok v, env2, st2) →
      st2.path = st0.path := by
  intro env st0 v env2 st2 h
  cases args with
  | nil => exact absurd h (by simp [armIf])
  | cons cnd rest =>
    simp only [noCatchList, Bool.and_eq_true] at hnc
    simp only [armIf] at h
    rcases h2 : subEval f 1 cnd env st0 with ⟨r1, env1, st1⟩
    rw [h2] at h
    cases r1 with
    | error e1 => exact absurd h (by simp)
    | ok cv =>
      simp only at h
      have hp1 := subEval_pres f 1 cnd (hf cnd hnc.1) env st0 cv env1 st1 h2
      cases htr : truthy cv with
      | true =>
        simp only [htr, if_true] at h
        cases rest with
        | nil => exact absurd h (by simp)
        | cons thn rest2 =>
          simp only [noCatchList, Bool.and_eq_true] at hnc
          have hp2 := subEval_pres f 2 thn (hf thn hnc.2.1) env1 st1 v
            env2 st2 h
          rw [hp2, hp1]
      | false =>
        simp only [htr, Bool.false_eq_true, if_false] at h
        cases rest with
        | nil =>
          simp only [Prod.mk.injEq] at h
          rw [← h.2.2, hp1]
        | cons e1x rest2 =>
          cases rest2 with
          | nil =>
            simp only [Prod.mk.injEq] at h
            rw [← h.2.2, hp1]
          | cons els rest3 =>
            simp only [noCatchList, Bool.and_eq_true] at hnc
            have hp2 := subEval_pres f 3 els (hf els hnc.2.2.1) env1 st1 v
              env2 st2 h
            rw [hp2, hp1]

/-- The `set` arm restores the path on success. -/
theorem armSet_pres (f : SExpr → Env → SyncState → Res)
    (hf : ∀ e, noCatch e = true → PathPres f e) (args : List SExpr)
    (hnc : noCatchList args = true) :
    ∀ env st0 v env2 st2, armSet f args env st0 = (.ok v, env2, st2) →
      st2.path = st0.path := by
  intro env st0 v env2 st2 h
  match args with
  | [] => exact absurd h (by simp [armSet])
  | [v1] => exact absurd h (by simp [armSet])
  | v1 :: v2 :: v3 :: vr => exact absurd h (by simp [armSet])
  | [varName, valueExpr] =>
    simp only [noCatchList, Bool.and_eq_true] at hnc
    cases varName with
    | str vn =>
      simp only [armSet] at h
      rcases h2 : subEval f 2 valueExpr env st0 with ⟨r1, env1, st1⟩
      rw [h2] at h
      cases r1 with
      | error e1 => exact absurd h (by simp)
      | ok w =>
        simp only at h
        have hp1 := subEval_pres f 2 valueExpr (hf valueExpr hnc.2.1)
          env st0 w env1 st1 h2
        cases h3 : env1.setVar vn w with
        | ok env3 =>
          rw [h3] at h
          simp only [Prod.mk.injEq] at h
          rw [← h.2.2, hp1]
        | error e1 =>
          rw [h3] at h
          exact absurd h (by simp)
    | int k => exact absurd h (by simp [armSet])
    | float q => exact absurd h (by simp [armSet])
    | list l => exact absurd h (by simp [armSet])

/-- The `while` arm restores the path on success. -/
theorem armWhile_pres (f : SExpr → Env → SyncState → Res)
    (hf : ∀ e, noCatch e = true → PathPres f e) (args : List SExpr)
    (hnc : noCatchList args = true) :
    ∀ env st0 v env2 st2, armWhile f args env st0 = (.ok v, env2, st2) →
      st2.path = st0.path := by
  intro env st0 v env2 st2 h
  match args with
  | [] => exact absurd h (by simp [armWhile])
  | [c] => exact absurd h (by simp [armWhile])
  | c :: b :: m :: x :: xr => exact absurd h (by simp [armWhile])
  | [c, b] =>
    simp only [noCatchList, Bool.and_eq_true] at hnc
    exact whileCont_pres f c b (hf c hnc.1) (hf b hnc.2.1) (.vInt 1000)
      env st0 v env2 st2 h
  | [c, b, m] =>
    simp only [noCatchList, Bool.and_eq_true] at hnc
    have hc := hf c hnc.1
    have hb := hf b hnc.2.1
    cases m with
    | int n => exact whileCont_pres f c b hc hb (.vInt n) env st0 v env2 st2 h
    | str ms =>
      simp only [armWhile] at h
      rcases h2 : f (.str ms) env st0 with ⟨r1, env1, st1⟩
      rw [h2] at h
      cases r1 with
      | error e1 => exact absurd h (by simp)
      | ok mv =>
        simp only at h
        have hp1 := hf (.str ms) (by simp [noCatch]) env st0 mv env1 st1 h2
        have hp2 := whileCont_pres f c b hc hb mv env1 st1 v env2 st2 h
        rw [hp2, hp1]
    | float q =>
      simp only [armWhile] at h
      rcases h2 : f (.float q) env st0 with ⟨r1, env1, st1⟩
      rw [h2] at h
      cases r1 with
      | error e1 => exact absurd h (by simp)
      | ok mv =>
        simp only at h
        have hp1 := hf (.float q) (by simp [noCatch]) env st0 mv env1 st1 h2
        have hp2 := whileCont_pres f c b hc hb mv env1 st1 v env2 st2 h
        rw [hp2, hp1]
    | list l =>
      simp only [armWhile] at h
      rcases h2 : f (.list l) env st0 with ⟨r1, env1, st1⟩
      rw [h2] at h
      cases r1 with
      | error e1 => exact absurd h (by simp)
      | ok mv =>
        simp only at h
        have hp1 := hf (.list l) hnc.2.2.1 env st0 mv env1 st1 h2
        have hp2 := whileCont_pres f c b hc hb mv env1 st1 v env2 st2 h
        rw [hp2, hp1]

/-- The `+` arm restores the path on success. -/
theorem armPlus_pres (f : SExpr → Env → SyncState → Res)
    (hf : ∀ e, noCatch e = true → PathPres f e) (args : List SExpr)
    (hnc : noCatchList args = true) :
    ∀ env st0 v env2 st2, armPlus f args env st0 = (.ok v, env2, st2) →
      st2.path = st0.path := by
  intro env st0 v env2 st2 h
  match args with
  | [] => exact absurd h (by simp [armPlus])
  | [a] => exact absurd h (by simp [armPlus])
  | a :: b :: rest =>
    simp only [noCatchList, Bool.and_eq_true] at hnc
    simp only [armPlus] at h
    rcases h2 : subEval f 1 a env st0 with ⟨r1, env1, st1⟩
    rw [h2] at h
    cases r1 with
    | error e1 => exact absurd h (by simp)
    | ok v0 =>
      simp only at h
      have hp1 := subEval_pres f 1 a (hf a hnc.1) env st0 v0 env1 st1 h2
      have hp2 := evalAddFold_pres f hf (b :: rest)
        (by simp [noCatchList, hnc.2.1, hnc.2.2]) 2 v0 env1 st1 v env2 st2 h
      rw [hp2, hp1]

/-- The `<` arm restores the path on success. -/
theorem armLt_pres (f : SExpr → Env → SyncState → Res)
    (hf : ∀ e, noCatch e = true → PathPres f e) (args : List SExpr)
    (hnc : noCatchList args = true) :
    ∀ env st0 v env2 st2, armLt f args env st0 = (.ok v, env2, st2) →
      st2.path = st0.path := by
  intro env st0 v env2 st2 h
  match args with
  | [] => exact absurd h (by simp [armLt])
  | [a] => exact absurd h (by simp [armLt])
  | a :: b :: c :: cr => exact absurd h (by simp [armLt])
  | [a, b] =>
    simp only [noCatchList, Bool.and_eq_true] at hnc
    simp only [armLt] at h
    rcases h2 : subEval f 1 a env st0 with ⟨r1, env1, st1⟩
    rw [h2] at h
    cases r1 with
    | error e1 => exact absurd h (by simp)
    | ok va =>
      simp only at h
      have hp1 := subEval_pres f 1 a (hf a hnc.1) env st0 va env1 st1 h2
      rcases h3 : subEval f 2 b env1 st1 with ⟨r2, env3, st3⟩
      rw [h3] at h
      cases r2 with
      | error e1 => exact absurd h (by simp)
      | ok vb =>
        simp only at h
        have hp2 := subEval_pres f 2 b (hf b hnc.2.1) env1 st1 vb
          env3 st3 h3
        cases h4 : pyLt va vb with
        | ok w =>
          rw [h4] at h
          simp only [Prod.mk.injEq] at h
          rw [← h.2.2, hp2, hp1]
        | error e1 =>
          rw [h4] at h
          exact absurd h (by simp)

/-- The `let` arm restores the path on success. -/
theorem armLet_pres (f : SExpr → Env → SyncState → Res)
    (hf : ∀ e, noCatch e = true → PathPres f e) (args : List SExpr)
    (hnc : noCatchLet args = true) :
    ∀ env st0 v env2 st2, armLet f args env st0 = (.ok v, env2, st2) →
      st2.path = st0.path := by
  intro env st0 v env2 st2 h
  match args with
  | [] => exact absurd h (by simp [armLet])
  | [bl] => exact absurd h (by simp [armLet])
  | bl :: body :: rest2 =>
    cases bl with
    | list bs =>
      simp only [noCatchLet, noCatchList, Bool.and_eq_true] at hnc
      simp only [armLet] at h
      rcases h2 : evalLetBindings f bs 1 [] env st0 with ⟨rb, env3, st3⟩
      rw [h2] at h
      cases rb with
      | error e1 => exact absurd h (by simp)
      | ok childBs =>
        simp only at h
        rcases h3 : subEval f (bs.length + 1) body (.child childBs env3) st3
          with ⟨r2, env4, st4⟩
        rw [h3] at h
        cases r2 with
        | error e1 => exact absurd h (by simp)
        | ok w2 =>
          simp only [Prod.mk.injEq] at h
          rw [← h.2.2]
          have hpb := subEval_pres f (bs.length + 1) body (hf body hnc.2.1)
            (.child childBs env3) st3 w2 env4 st4 h3
          have hpl := evalLetBindings_pres f hf bs hnc.1 1 [] env st0
            childBs env3 st3 h2
          rw [hpb, hpl]
    | str x => exact absurd h (by simp [armLet])
    | int k => exact absurd h (by simp [armLet])
    | float q2 => exact absurd h (by simp [armLet])

/-- The `notify` arm restores the path on success. -/
theorem armNotify_pres (f : SExpr → Env → SyncState → Res)
    (hf : ∀ e, noCatch e = true → PathPres f e) (args : List SExpr)
    (hnc : noCatchList args = true) :
    ∀ env st0 v env2 st2, armNotify f args env st0 = (.ok v, env2, st2) →
      st2.path = st0.path := by
  intro env st0 v env2 st2 h
  cases args with
  | nil => exact absurd h (by simp [armNotify])
  | cons a rest =>
    simp only [noCatchList, Bool.and_eq_true] at hnc
    simp only [armNotify] at h
    rcases h2 : subEval f 1 a env st0 with ⟨r1, env1, st1⟩
    rw [h2] at h
    cases r1 with
    | error e1 => exact absurd h (by simp)
    | ok msg =>
      simp only [Prod.mk.injEq] at h
      rw [← h.2.2]
      have hp1 := subEval_pres f 1 a (hf a hnc.1) env st0 msg env1 st1 h2
      simp [logE, hp1]

/-- The `search` arm restores the path on success. -/
theorem armSearch_pres (O : Oracles) (f : SExpr → Env → SyncState → Res)
    (hf : ∀ e, noCatch e = true → PathPres f e) (args : List SExpr)
    (hnc : noCatchList args = true) :
    ∀ env st0 v env2 st2, armSearch O f args env st0 = (.ok v, env2, st2) →
      st2.path = st0.path := by
  intro env st0 v env2 st2 h
  cases args with
  | nil => exact absurd h (by simp [armSearch])
  | cons a rest =>
    simp only [noCatchList, Bool.and_eq_true] at hnc
    simp only [armSearch] at h
    rcases h2 : subEval f 1 a env st0 with ⟨r1, env1, st1⟩
    rw [h2] at h
    cases r1 with
    | error e1 => exact absurd h (by simp)
    | ok q =>
      simp only [Prod.mk.injEq] at h
      rw [← h.2.2]
      have hp1 := subEval_pres f 1 a (hf a hnc.1) env st0 q env1 st1 h2
      simp [logE, hp1]

/-- The `calc` arm restores the path on success. -/
theorem armCalc_pres (O : Oracles) (f : SExpr → Env → SyncState → Res)
    (hf : ∀ e, noCatch e = true → PathPres f e) (args : List SExpr)
    (hnc : noCatchList args = true) :
    ∀ env st0 v env2 st2, armCalc O f args env st0 = (.ok v, env2, st2) →
      st2.path = st0.path := by
  intro env st0 v env2 st2 h
  cases args with
  | nil => exact absurd h (by simp [armCalc])
  | cons a rest =>
    simp only [noCatchList, Bool.and_eq_true] at hnc
    simp only [armCalc] at h
    rcases h2 : subEval f 1 a env st0 with ⟨r1, env1, st1⟩
    rw [h2] at h
    cases r1 with
    | error e1 => exact absurd h (by simp)
    | ok w =>
      simp only [Prod.mk.injEq] at h
      rw [← h.2.2]
      have hp1 := subEval_pres f 1 a (hf a hnc.1) env st0 w env1 st1 h2
      simp [logE, hp1]

/-- The `db-query` arm restores the path on success. -/
theorem armDbQuery_pres (f : SExpr → Env → SyncState → Res)
    (hf : ∀ e, noCatch e = true → PathPres f e) (args : List SExpr)
    (hnc : noCatchList args = true) :
    ∀ env st0 v env2 st2, armDbQuery f args env st0 = (.ok v, env2, st2) →
      st2.path = st0.path := by
  intro env st0 v env2 st2 h
  cases args with
  | nil => exact absurd h (by simp [armDbQuery])
  | cons a rest =>
    simp only [noCatchList, Bool.and_eq_true] at hnc
    simp only [armDbQuery] at h
    rcases h2 : subEval f 1 a env st0 with ⟨r1, env1, st1⟩
    rw [h2] at h
    cases r1 with
    | error e1 => exact absurd h (by simp)
    | ok q =>
      simp only [Prod.mk.injEq] at h
      rw [← h.2.2]
      have hp1 := subEval_pres f 1 a (hf a hnc.1) env st0 q env1 st1 h2
      simp [logE, hp1]

/-- The `math` arm restores the path on success. -/
theorem armMath_pres (O : Oracles) (f : SExpr → Env → SyncState → Res)
    (hf : ∀ e, noCatch e = true → PathPres f e) (args : List SExpr)
    (hnc : noCatchList args = true) :
    ∀ env st0 v env2 st2, armMath O f args env st0 = (.ok v, env2, st2) →
      st2.path = st0.path := by
  intro env st0 v env2 st2 h
  match args with
  | [] => exact absurd h (by simp [armMath])
  | [a] => exact absurd h (by simp [armMath])
  | a :: b :: rest =>
    simp only [noCatchList, Bool.and_eq_true] at hnc
    simp only [armMath] at h
    rcases h2 : subEval f 1 a env st0 with ⟨r1, env1, st1⟩
    rw [h2] at h
    cases r1 with
    | error e1 => exact absurd h (by simp)
    | ok ev =>
      simp only at h
      have hp1 := subEval_pres f 1 a (hf a hnc.1) env st0 ev env1 st1 h2
      rcases h3 : subEval f 2 b env1 st1 with ⟨r2, env3, st3⟩
      rw [h3] at h
      cases r2 with
      | error e1 => exact absurd h (by simp)
      | ok opv =>
        simp only [Prod.mk.injEq] at h
        rw [← h.2.2]
        have hp2 := subEval_pres f 2 b (hf b hnc.2.1) env1 st1 opv
          env3 st3 h3
        simp [logE, hp2, hp1]

/-- The `step_math` arm restores the path on success. -/
theorem armStepMath_pres (O : Oracles) (f : SExpr → Env → SyncState → Res)
    (hf : ∀ e, noCatch e = true → PathPres f e) (args : List SExpr)
    (hnc : noCatchList args = true) :
    ∀ env st0 v env2 st2, armStepMath O f args env st0 = (.ok v, env2, st2) →
      st2.path = st0.path := by
  intro env st0 v env2 st2 h
  match args with
  | [] => exact absurd h (by simp [armStepMath])
  | [a] => exact absurd h (by simp [armStepMath])
  | a :: b :: rest =>
    simp only [noCatchList, Bool.and_eq_true] at hnc
    simp only [armStepMath] at h
    rcases h2 : subEval f 1 a env st0 with ⟨r1, env1, st1⟩
    rw [h2] at h
    cases r1 with
    | error e1 => exact absurd h (by simp)
    | ok ev =>
      simp only at h
      have hp1 := subEval_pres f 1 a (hf a hnc.1) env st0 ev env1 st1 h2
      rcases h3 : subEval f 2 b env1 st1 with ⟨r2, env3, st3⟩
      rw [h3] at h
      cases r2 with
      | error e1 => exact absurd h (by simp)
      | ok opv =>
        simp only [Prod.mk.injEq] at h
        rw [← h.2.2]
        have hp2 := subEval_pres f 2 b (hf b hnc.2.1) env1 st1 opv
          env3 st3 h3
        simp [logE, hp2, hp1]

/-- The `ask_user` arm restores the path on success. -/
theorem armAskUser_pres (O : Oracles) (f : SExpr → Env → SyncState → Res)
    (hf : ∀ e, noCatch e = true → PathPres f e) (args : List SExpr)
    (hnc : noCatchList args = true) :
    ∀ env st0 v env2 st2, armAskUser O f args env st0 = (.ok v, env2, st2) →
      st2.path = st0.path := by
  intro env st0 v env2 st2 h
  cases args with
  | nil => exact absurd h (by simp [armAskUser])
  | cons a rest =>
    simp only [noCatchList, Bool.and_eq_true] at hnc
    simp only [armAskUser] at h
    rcases h2 : subEval f 1 a env st0 with ⟨r1, env1, st1⟩
    rw [h2] at h
    cases r1 with
    | error e1 => exact absurd h (by simp)
    | ok qv =>
      simp only at h
      have hp1 := subEval_pres f 1 a (hf a hnc.1) env st0 qv env1 st1 h2
      cases rest with
      | nil =>
        simp only at h
        cases h3 : O.askUserFn (pyStr qv) "user_input" "required" with
        | some w =>
          rw [h3] at h
          simp only [Prod.mk.injEq] at h
          rw [← h.2.2]
          simp [logE, hp1]
        | none =>
          rw [h3] at h
          simp only [Prod.mk.injEq] at h
          rw [← h.2.2]
          simp [logE, hp1]
      | cons t1 rest2 =>
        cases rest2 with
        | nil =>
          simp only at h
          cases h3 : O.askUserFn (pyStr qv) (pyStrS t1) "required" with
          | some w =>
            rw [h3] at h
            simp only [Prod.mk.injEq] at h
            rw [← h.2.2]
            simp [logE, hp1]
          | none =>
            rw [h3] at h
            simp only [Prod.mk.injEq] at h
            rw [← h.2.2]
            simp [logE, hp1]
        | cons t2 rest3 =>
          simp only at h
          cases h3 : O.askUserFn (pyStr qv) (pyStrS t1) (pyStrS t2) with
          | some w =>
            rw [h3] at h
            simp only [Prod.mk.injEq] at h
            rw [← h.2.2]
            simp [logE, hp1]
          | none =>
            rw [h3] at h
            simp only [Prod.mk.injEq] at h
            rw [← h.2.2]
            simp [logE, hp1]

/-- `noCatch` on a `let` form, in terms of the split-out condition. -/
theorem noCatch_let (args : List SExpr) :
    noCatch (SExpr.list (.str "let" :: args)) = noCatchLet args := by
  cases args with
  | nil => rfl
  | cons bl rest => cases bl <;> rfl

/-- `noCatch` on an arbitrary operator form. -/
theorem noCatch_op (op : String) (args : List SExpr) :
    noCatch (SExpr.list (.str op :: args)) =
      (if op = "handle" then false
       else if op = "let" then noCatchLet args
       else knownOps.contains op && noCatchList args) := by
  cases args with
  | nil => rfl
  | cons bl rest => cases bl <;> rfl

/-- One dispatch step preserves the path stack on success, for
expressions that catch no sub-evaluation error internally. -/
theorem evalCore_pres (O : Oracles) (f : SExpr → Env → SyncState → Res)
    (hf : ∀ e, noCatch e = true → PathPres f e) :
    ∀ e, noCatch e = true → PathPres (evalCore O f) e := by
  intro e he env st v env1 st1 heval
  cases e with
  | str s =>
    rw [evalCore_str] at heval
    cases hls : env.lookupChain s with
    | some w =>
      rw [hls] at heval
      simp only [Prod.mk.injEq] at heval
      rw [← heval.2.2]
    | none =>
      rw [hls] at heval
      simp only [Prod.mk.injEq] at heval
      rw [← heval.2.2]
  | int n =>
    rw [show evalCore O f (.int n) env st = (.ok (.vInt n), env, st)
      from rfl] at heval
    simp only [Prod.mk.injEq] at heval
    rw [← heval.2.2]
  | float q =>
    rw [show evalCore O f (.float q) env st = (.ok (.vFloat q), env, st)
      from rfl] at heval
    simp only [Prod.mk.injEq] at heval
    rw [← heval.2.2]
  | list es =>
    cases es with
    | nil =>
      rw [show evalCore O f (.list []) env st = (.ok (.vList []), env, st)
        from rfl] at heval
      simp only [Prod.mk.injEq] at heval
      rw [← heval.2.2]
    | cons h1 args =>
      cases h1 with
      | int n =>
        rw [show noCatch (SExpr.list (.int n :: args)) = false from rfl] at he
        exact absurd he (by simp)
      | float q =>
        rw [show noCatch (SExpr.list (.float q :: args)) = false from rfl] at he
        exact absurd he (by simp)
      | list l =>
        rw [show noCatch (SExpr.list (.list l :: args)) = false from rfl] at he
        exact absurd he (by simp)
      | str op =>
        by_cases hop1 : op = "plan"
        · subst hop1
          rw [show noCatch (SExpr.list (.str "plan" :: args)) =
            noCatchList args from rfl] at he
          rw [show evalCore O f (.list (.str "plan" :: args)) env st =
            finishArm (armPlan f args env (pushP 0 st)) from rfl] at heval
          exact finishArm_pres _ st
            (fun w ea sa hw => armPlan_pres f hf args he env (pushP 0 st) w ea sa hw) v env1 st1 heval
        by_cases hop2 : op = "seq"
        · subst hop2
          rw [show noCatch (SExpr.list (.str "seq" :: args)) =
            noCatchList args from rfl] at he
          rw [show evalCore O f (.list (.str "seq" :: args)) env st =
            finishArm (armSeq f args env (pushP 0 st)) from rfl] at heval
          exact finishArm_pres _ st
            (fun w ea sa hw => armSeq_pres f hf args he env (pushP 0 st) w ea sa hw) v env1 st1 heval
        by_cases hop3 : op = "par"
        · subst hop3
          rw [show noCatch (SExpr.list (.str "par" :: args)) =
            noCatchList args from rfl] at he
          rw [show evalCore O f (.list (.str "par" :: args)) env st =
            finishArm (armPar f args env (pushP 0 st)) from rfl] at heval
          exact finishArm_pres _ st
            (fun w ea sa hw => armPar_pres f hf args he env (pushP 0 st) w ea sa hw) v env1 st1 heval
        by_cases hop4 : op = "if"
        · subst hop4
          rw [show noCatch (SExpr.list (.str "if" :: args)) =
            noCatchList args from rfl] at he
          rw [show evalCore O f (.list (.str "if" :: args)) env st =
            finishArm (armIf f args env (pushP 0 st)) from rfl] at heval
          exact finishArm_pres _ st
            (fun w ea sa hw => armIf_pres f hf args he env (pushP 0 st) w ea sa hw) v env1 st1 heval
        by_cases hop5 : op = "handle"
        · subst hop5
          rw [show noCatch (SExpr.list (.str "handle" :: args)) = false
            from rfl] at he
          exact absurd he (by simp)
        by_cases hop6 : op = "set"
        · subst hop6
          rw [show noCatch (SExpr.list (.str "set" :: args)) =
            noCatchList args from rfl] at he
          rw [show evalCore O f (.list (.str "set" :: args)) env st =
            finishArm (armSet f args env (pushP 0 st)) from rfl] at heval
          exact finishArm_pres _ st
            (fun w ea sa hw => armSet_pres f hf args he env (pushP 0 st) w ea sa hw) v env1 st1 heval
        by_cases hop7 : op = "while"
        · subst hop7
          rw [show noCatch (SExpr.list (.str "while" :: args)) =
            noCatchList args from rfl] at he
          rw [show evalCore O f (.list (.str "while" :: args)) env st =
            finishArm (armWhile f args env (pushP 0 st)) from rfl] at heval
          exact finishArm_pres _ st
            (fun w ea sa hw => armWhile_pres f hf args he env (pushP 0 st) w ea sa hw) v env1 st1 heval
        by_cases hop8 : op = "+"
        · subst hop8
          rw [show noCatch (SExpr.list (.str "+" :: args)) =
            noCatchList args from rfl] at he
          rw [show evalCore O f (.list (.str "+" :: args)) env st =
            finishArm (armPlus f args env (pushP 0 st)) from rfl] at heval
          exact finishArm_pres _ st
            (fun w ea sa hw => armPlus_pres f hf args he env (pushP 0 st) w ea sa hw) v env1 st1 heval
        by_cases hop9 : op = "<"
        · subst hop9
          rw [show noCatch (SExpr.list (.str "<" :: args)) =
            noCatchList args from rfl] at he
          rw [show evalCore O f (.list (.str "<" :: args)) env st =
            finishArm (armLt f args env (pushP 0 st)) from rfl] at heval
          exact finishArm_pres _ st
            (fun w ea sa hw => armLt_pres f hf args he env (pushP 0 st) w ea sa hw) v env1 st1 heval
        by_cases hop10 : op = "let"
        · subst hop10
          rw [noCatch_let] at he
          rw [show evalCore O f (.list (.str "let" :: args)) env st =
            finishArm (armLet f args env (pushP 0 st)) from rfl] at heval
          exact finishArm_pres _ st
            (fun w ea sa hw => armLet_pres f hf args he env (pushP 0 st) w ea sa hw) v env1 st1 heval
        by_cases hop11 : op = "notify"
        · subst hop11
          rw [show noCatch (SExpr.list (.str "notify" :: args)) =
            noCatchList args from rfl] at he
          rw [show evalCore O f (.list (.str "notify" :: args)) env st =
            finishArm (armNotify f args env (pushP 0 st)) from rfl] at heval
          exact finishArm_pres _ st
            (fun w ea sa hw => armNotify_pres f hf args he env (pushP 0 st) w ea sa hw) v env1 st1 heval
        by_cases hop12 : op = "search"
        · subst hop12
          rw [show noCatch (SExpr.list (.str "search" :: args)) =
            noCatchList args from rfl] at he
          rw [show evalCore O f (.list (.str "search" :: args)) env st =
            finishArm (armSearch O f args env (pushP 0 st)) from rfl] at heval
          exact finishArm_pres _ st
            (fun w ea sa hw => armSearch_pres O f hf args he env (pushP 0 st) w ea sa hw) v env1 st1 heval
        by_cases hop13 : op = "calc"
        · subst hop13
          rw [show noCatch (SExpr.list (.str "calc" :: args)) =
            noCatchList args from rfl] at he
          rw [show evalCore O f (.list (.str "calc" :: args)) env st =
            finishArm (armCalc O f args env (pushP 0 st)) from rfl] at heval
          exact finishArm_pres _ st
            (fun w ea sa hw => armCalc_pres O f hf args he env (pushP 0 st) w ea sa hw) v env1 st1 heval
        by_cases hop14 : op = "db-query"
        · subst hop14
          rw [show noCatch (SExpr.list (.str "db-query" :: args)) =
            noCatchList args from rfl] at he
          rw [show evalCore O f (.list (.str "db-query" :: args)) env st =
            finishArm (armDbQuery f args env (pushP 0 st)) from rfl] at heval
          exact finishArm_pres _ st
            (fun w ea sa hw => armDbQuery_pres f hf args he env (pushP 0 st) w ea sa hw) v env1 st1 heval
        by_cases hop15 : op = "math"
        · subst hop15
          rw [show noCatch (SExpr.list (.str "math" :: args)) =
            noCatchList args from rfl] at he
          rw [show evalCore O f (.list (.str "math" :: args)) env st =
            finishArm (armMath O f args env (pushP 0 st)) from rfl] at heval
          exact finishArm_pres _ st
            (fun w ea sa hw => armMath_pres O f hf args he env (pushP 0 st) w ea sa hw) v env1 st1 heval
        by_cases hop16 : op = "step_math"
        · subst hop16
          rw [show noCatch (SExpr.list (.str "step_math" :: args)) =
            noCatchList args from rfl] at he
          rw [show evalCore O f (.list (.str "step_math" :: args)) env st =
            finishArm (armStepMath O f args env (pushP 0 st)) from rfl] at heval
          exact finishArm_pres _ st
            (fun w ea sa hw => armStepMath_pres O f hf args he env (pushP 0 st) w ea sa hw) v env1 st1 heval
        by_cases hop17 : op = "ask_user"
        · subst hop17
          rw [show noCatch (SExpr.list (.str "ask_user" :: args)) =
            noCatchList args from rfl] at he
          rw [show evalCore O f (.list (.str "ask_user" :: args)) env st =
            finishArm (armAskUser O f args env (pushP 0 st)) from rfl] at heval
          exact finishArm_pres _ st
            (fun w ea sa hw => armAskUser_pres O f hf args he env (pushP 0 st) w ea sa hw) v env1 st1 heval
        rw [noCatch_op, if_neg hop5, if_neg hop10] at he
        simp only [Bool.and_eq_true] at he
        have hco : op ∈ knownOps := by
          simpa using he.1
        simp only [knownOps, List.mem_cons, List.not_mem_nil, or_false]
          at hco
        rcases hco with h|h|h|h|h|h|h|h|h|h|h|h|h|h|h|h
        · exact absurd h hop1
        · exact absurd h hop2
        · exact absurd h hop3
        · exact absurd h hop4
        · exact absurd h hop6
        · exact absurd h hop7
        · exact absurd h hop8
        · exact absurd h hop9
        · exact absurd h hop10
        · exact absurd h hop11
        · exact absurd h hop12
        · exact absurd h hop13
        · exact absurd h hop14
        · exact absurd h hop15
        · exact absurd h hop16
        · exact absurd h hop17

/-- Full-evaluator success-path balance on `noCatch` expressions, by
induction on the fuel. -/
theorem evalB_pres (O : Oracles) :
    ∀ fuel e, noCatch e = true → PathPres (evalB O fuel) e := by
  intro fuel
  induction fuel with
  | zero =>
    intro e he env st v env1 st1 heval
    exact absurd heval (by simp [evalB])
  | succ fuel ih =>
    intro e he env st v env1 st1 heval
    rw [evalB_succ] at heval
    rcases h2 : evalCore O (evalB O fuel) e env st with ⟨r, env2, st2⟩
    rw [h2] at heval
    cases r with
    | error e1 => exact absurd heval (by simp)
    | ok w =>
      simp only [Prod.mk.injEq] at heval
      rw [← heval.2.2]
      exact evalCore_pres O (evalB O fuel) ih e he env st w env2 st2 h2

/-- Whenever the full evaluator surfaces an error, its except-handler
has cleared the whole path stack. -/
theorem evalB_err (O : Oracles) :
    ∀ fuel e env st er env1 st1,
      evalB O fuel e env st = (.error er, env1, st1) → st1.path = [] := by
  intro fuel e env st er env1 st1 heval
  cases fuel with
  | zero =>
    simp only [evalB, Prod.mk.injEq] at heval
    rw [← heval.2.2]
  | succ fuel =>
    rw [evalB_succ] at heval
    rcases h2 : evalCore O (evalB O fuel) e env st with ⟨r, env2, st2⟩
    rw [h2] at heval
    cases r with
    | ok w => exact absurd heval (by simp)
    | error e1 =>
      simp only [Prod.mk.injEq] at heval
      rw [← heval.2.2]

/-- C9 counterexample: evaluating a `handle` form whose protected
sub-form fails succeeds with the fallback value, yet leaves the path
stack empty instead of restoring the pre-call stack `[7]` — the
except-handler clears the whole stack, so the push/pop bracket is not
balanced on the exception path. -/
theorem claim9_counterexample :
    (evalB O0 10
      (.list [.str "handle", .str "e",
        .list [.str "set", .str "x", .int 1], .int 42])
      env0 { path := [7], effects := [] }).1 = .ok (.vInt 42) ∧
    (evalB O0 10
      (.list [.str "handle", .str "e",
        .list [.str "set", .str "x", .int 1], .int 42])
      env0 { path := [7], effects := [] }).2.2.path = [] ∧
    ([] : List Nat) ≠ [7] :=
  ⟨rfl, rfl, by decide⟩

/-- C9 (amended): on expressions that swallow no internal exception
(every operator a known non-`handle` built-in arm), a successful
evaluation restores the path stack exactly — every `push_path` is
matched by a `pop_path`; but when an exception propagates out of the
evaluator, the except-handler has cleared the entire path stack
(`logger.current_path.clear()`) rather than restoring the pre-call
stack. -/
theorem claim9_amended (O : Oracles) (fuel : Nat) (e : SExpr) (env : Env)
    (st : SyncState) :
    (noCatch e = true → ∀ v env1 st1,
      evalB O fuel e env st = (.ok v, env1, st1) → st1.path = st.path) ∧
    (∀ er env1 st1,
      evalB O fuel e env st = (.error er, env1, st1) → st1.path = []) := by
  constructor
  · intro he v env1 st1 h
    exact evalB_pres O fuel e he env st v env1 st1 h
  · intro er env1 st1 h
    exact evalB_err O fuel e env st er env1 st1 h

/-- Witness for the amended C9: a successful `seq` evaluation restores
the pre-call stack `[3]`, and a failing `+` evaluation leaves the
stack cleared. -/
theorem claim9_amended_witness :
    ((evalB O0 5 (.list [.str "seq", .int 7]) env0
        { path := [3], effects := [] }).2.2.path = [3]) ∧
    ((evalB O0 5 (.list [.str "+", .int 1]) env0
        { path := [3], effects := [] }).2.2.path = []) := by
  constructor
  · have h := (claim9_amended O0 5 (.list [.str "seq", .int 7]) env0
      { path := [3], effects := [] }).1 (by decide)
    exact h (.vInt 7) env0 { path := [3], effects := [] } rfl
  · have h := (claim9_amended O0 5 (.list [.str "+", .int 1]) env0
      { path := [3], effects := [] }).2
    exact h (.typeError "加算には少なくとも2つの引数が必要です") env0
      { path := [], effects := [] } rfl

end SAgent
